import Mathlib

/-!
Shallow embedding of the azimuth Lore Map core: the Foundry export
resolver (placeholder identities, relationship construction, batch
export), the Entry Store (schemas, slug generation, create), the
relatedness ranker, the orchestrator's classifier boundary, and the
frontend's markdown renderer and SSE chunk parser; together with the
theorems settling the specification claims about them.
-/

/- ## SHA-256 (embedding of `hashlib.sha256(...).hexdigest()`)

The export resolver computes placeholder identities with Python's
`hashlib.sha256`.  We embed SHA-256 (FIPS 180-4) over `Nat`, with all
32-bit arithmetic taken modulo `2 ^ 32`. -/

namespace Sha256

/-- 32-bit truncation. -/
def m32 (n : Nat) : Nat := n % 4294967296

/-- 32-bit right rotation. -/
def rotr (k n : Nat) : Nat := m32 ((n >>> k) ||| (n <<< (32 - k)))

/-- SHA-256 round constants (fractional parts of cube roots of the
first 64 primes). -/
def K : List Nat :=
  [1116352408, 1899447441, 3049323471, 3921009573, 961987163,
   1508970993, 2453635748, 2870763221, 3624381080, 310598401,
   607225278, 1426881987, 1925078388, 2162078206, 2614888103,
   3248222580, 3835390401, 4022224774, 264347078, 604807628,
   770255983, 1249150122, 1555081692, 1996064986, 2554220882,
   2821834349, 2952996808, 3210313671, 3336571891, 3584528711,
   113926993, 338241895, 666307205, 773529912, 1294757372,
   1396182291, 1695183700, 1986661051, 2177026350, 2456956037,
   2730485921, 2820302411, 3259730800, 3345764771, 3516065817,
   3600352804, 4094571909, 275423344, 430227734, 506948616,
   659060556, 883997877, 958139571, 1322822218, 1537002063,
   1747873779, 1955562222, 2024104815, 2227730452, 2361852424,
   2428436474, 2756734187, 3204031479, 3329325298]

/-- SHA-256 initial hash state. -/
def H0 : List Nat :=
  [1779033703, 3144134277, 1013904242, 2773480762,
   1359893119, 2600822924, 528734635, 1541459225]

/-- UTF-8 encoding of one character (embedding of `str.encode()`). -/
def utf8Bytes (c : Char) : List Nat :=
  let n := c.toNat
  if n < 0x80 then [n]
  else if n < 0x800 then
    [0xC0 ||| (n >>> 6), 0x80 ||| (n &&& 0x3F)]
  else if n < 0x10000 then
    [0xE0 ||| (n >>> 12), 0x80 ||| ((n >>> 6) &&& 0x3F), 0x80 ||| (n &&& 0x3F)]
  else
    [0xF0 ||| (n >>> 18), 0x80 ||| ((n >>> 12) &&& 0x3F),
     0x80 ||| ((n >>> 6) &&& 0x3F), 0x80 ||| (n &&& 0x3F)]

/-- UTF-8 bytes of a string. -/
def strBytes (s : String) : List Nat := s.data.flatMap utf8Bytes

/-- Big-endian bytes of a number, fixed width. -/
def beBytes : Nat → Nat → List Nat
  | 0, _ => []
  | w + 1, n => (n >>> (8 * w)) % 256 :: beBytes w n

/-- SHA-256 padding: append `0x80`, zeros, then the 64-bit big-endian
bit length, reaching a multiple of 64 bytes. -/
def pad (msg : List Nat) : List Nat :=
  let l := msg.length
  let zeros := (64 + 55 - (l % 64)) % 64
  msg ++ [0x80] ++ List.replicate zeros 0 ++ beBytes 8 (8 * l)

/-- Group bytes into big-endian 32-bit words. -/
def toWords : List Nat → List Nat
  | b0 :: b1 :: b2 :: b3 :: rest =>
      (((b0 * 256 + b1) * 256 + b2) * 256 + b3) :: toWords rest
  | _ => []

/-- Group a list into chunks of 16 elements (one 512-bit block each). -/
def toBlocks : List Nat → List (List Nat)
  | [] => []
  | w0 :: w1 :: w2 :: w3 :: w4 :: w5 :: w6 :: w7 ::
    w8 :: w9 :: w10 :: w11 :: w12 :: w13 :: w14 :: w15 :: rest =>
      [w0, w1, w2, w3, w4, w5, w6, w7,
       w8, w9, w10, w11, w12, w13, w14, w15] :: toBlocks rest
  | l => [l]

/-- Message-schedule extension: extend 16 words to 64. -/
def schedule (w : List Nat) : List Nat :=
  (List.range 48).foldl
    (fun acc _ =>
      let i := acc.length
      let w15 := acc.getD (i - 15) 0
      let w2 := acc.getD (i - 2) 0
      let s0 := (rotr 7 w15) ^^^ (rotr 18 w15) ^^^ (w15 >>> 3)
      let s1 := (rotr 17 w2) ^^^ (rotr 19 w2) ^^^ (w2 >>> 10)
      acc ++ [m32 (acc.getD (i - 16) 0 + s0 + acc.getD (i - 7) 0 + s1)])
    w

/-- One compression round. -/
def round (st : List Nat) (kw : Nat × Nat) : List Nat :=
  match st with
  | [a, b, c, d, e, f, g, h] =>
      let S1 := (rotr 6 e) ^^^ (rotr 11 e) ^^^ (rotr 25 e)
      let ch := (e &&& f) ^^^ ((4294967295 - e) &&& g)
      let t1 := m32 (h + S1 + ch + kw.1 + kw.2)
      let S0 := (rotr 2 a) ^^^ (rotr 13 a) ^^^ (rotr 22 a)
      let mj := (a &&& b) ^^^ (a &&& c) ^^^ (b &&& c)
      let t2 := m32 (S0 + mj)
      [m32 (t1 + t2), a, b, c, m32 (d + t1), e, f, g]
  | st => st

/-- Process one 512-bit block. -/
def compress (h : List Nat) (block : List Nat) : List Nat :=
  let w := schedule block
  let st := (K.zip w).foldl round h
  (h.zip st).map fun p => m32 (p.1 + p.2)

/-- Lowercase hex digits of a number, fixed width. -/
def hexDigits : Nat → Nat → List Char
  | 0, _ => []
  | w + 1, n =>
      let d := (n >>> (4 * w)) &&& 15
      (if d < 10 then Char.ofNat (48 + d) else Char.ofNat (87 + d)) ::
        hexDigits w n

/-- `hashlib.sha256(s.encode()).hexdigest()`: the 64-character
lowercase-hex SHA-256 digest of a string's UTF-8 bytes. -/
def hexdigest (s : String) : String :=
  let final := (toBlocks (toWords (pad (strBytes s)))).foldl compress H0
  ⟨final.flatMap (hexDigits 8)⟩

end Sha256

/- ## Foundry export resolver (embedding of `foundry_formatter.py`,
`foundry_schemas.py` and the `export_to_foundry` MCP tool) -/

namespace Foundry

/-- `slug_to_foundry_id`: first 16 hex characters of the SHA-256 digest
of the slug (`hexdigest(...)[:16]`, written at the character-list
level). -/
def slug_to_foundry_id (slug : String) : String :=
  ⟨(Sha256.hexdigest slug).data.take 16⟩

/-- A row of the loremap `references` table, as returned by
`db.get_references`. -/
structure Ref where
  source_slug : String
  target_slug : String
  target_type : String
  relationship : String
deriving Repr, DecidableEq

/-- A loremap entry row, as returned by `db.get_entry`.  `metadata` is
the JSON object stored in the metadata column, modelled as the
key-value map it decodes to. -/
structure Entry where
  slug : String
  name : String
  type : String
  category : String
  status : String
  summary : String
  content : String
  metadata : List (String × String)
  parent_slug : String
deriving Repr, DecidableEq

/-- The loremap database as the export tools read it. -/
structure LoreDb where
  entries : List Entry
  refs : List Ref
deriving Repr, DecidableEq

/-- `db.get_entry(slug)`: first entry row with the given slug. -/
def get_entry (db : LoreDb) (slug : String) : Option Entry :=
  db.entries.find? (fun e => e.slug = slug)

/-- `db.get_references(slug)`: reference rows whose source is `slug`. -/
def get_references (db : LoreDb) (slug : String) : List Ref :=
  db.refs.filter (fun r => r.source_slug = slug)

/-- A Monk's Enhanced Journal relationship object, as built by
`build_relationship`. -/
structure Relationship where
  id : String
  uuid : String
  hidden : Bool
  name : String
  img : String
  type : String
  relationship : String
deriving Repr, DecidableEq

/-- `build_relationship`: relationship object pointing at
`target_slug`, with the id computed by `slug_to_foundry_id` and the MEJ
type from the function's local `mej_type_map`. -/
def build_relationship (target_slug target_name target_type
    relationship_desc : String) (target_img : String := "")
    (hidden : Bool := false) : Relationship :=
  let foundry_id := slug_to_foundry_id target_slug
  let mej_type_map : List (String × String) :=
    [("npc", "person"), ("location", "place"), ("faction", "organization"),
     ("event", "person"), ("culture", "person")]
  { id := foundry_id
    uuid := "JournalEntry." ++ foundry_id
    hidden := hidden
    name := target_name
    img := target_img
    type := (mej_type_map.lookup target_type).getD "person"
    relationship := relationship_desc }

/-- `MEJ_PAGE_TYPES` from `foundry_schemas.py`. -/
def MEJ_PAGE_TYPES : List (String × String) :=
  [("npc", "person"), ("location", "place"), ("faction", "organization"),
   ("event", "text"), ("culture", "text")]

/-- `markdown.markdown`: external library converting markdown to HTML;
opaque to every claim, modelled as the identity on the content. -/
def markdown_markdown (s : String) : String := s

/-- The Foundry JSON document produced by a per-type formatter
(`_format_npc`, `_format_location`, ...): the journal-entry envelope
with the page type, converted content and relationship list. -/
structure FoundryJson where
  name : String
  page_type : String
  html_content : String
  relationships : List Relationship
deriving Repr, DecidableEq

/-- The per-document result of `FoundryFormatter.export_entry`. -/
structure ExportedDoc where
  slug : String
  filename : String
  json : FoundryJson
  type : String
  foundry_type : String
deriving Repr, DecidableEq

/-- The keys of `formatter_map` in `export_entry`: entry types that
have a `_format_*` formatter. -/
def formatter_types : List String :=
  ["npc", "location", "faction", "event", "culture"]

/-- `FoundryFormatter.export_entry(slug, id_overrides)`: look the entry
up (`ValueError` if absent), build a relationship object for each
outbound reference whose target exists, dispatch on the entry type
(`ValueError` if no formatter), and assemble the document.  The
`id_overrides` argument is accepted, as in the source, and — as in the
source — never read. -/
def export_entry (db : LoreDb) (slug : String)
    (id_overrides : Option (List (String × String)) := none) :
    Except String ExportedDoc :=
  let _ := id_overrides
  match get_entry db slug with
  | none => .error ("Entry not found: " ++ slug)
  | some entry =>
    let references := get_references db slug
    let relationships := references.filterMap fun ref =>
      (get_entry db ref.target_slug).map fun target =>
        build_relationship ref.target_slug target.name ref.target_type
          ref.relationship
    let html_content := markdown_markdown entry.content
    if entry.type ∈ formatter_types then
      .ok { slug := slug
            filename := "fvtt-JournalEntry-" ++ slug ++ ".json"
            json := { name := entry.name
                      page_type := (MEJ_PAGE_TYPES.lookup entry.type).getD ""
                      html_content := html_content
                      relationships := relationships }
            type := entry.type
            foundry_type := (MEJ_PAGE_TYPES.lookup entry.type).getD "" }
    else
      .error ("Unsupported type: " ++ entry.type)

/-- Insert into a Python dict modelled as an association list:
overwrite the value when the key is present, append otherwise. -/
def dictInsert (l : List (String × String)) (k v : String) :
    List (String × String) :=
  if l.any (fun p => p.1 = k) then
    l.map (fun p => if p.1 = k then (k, v) else p)
  else
    l ++ [(k, v)]

/-- The manifest of an export batch.  `exported_at` is
`datetime.now().isoformat()`, passed in as the ambient clock value. -/
structure Manifest where
  exported_at : String
  foundry_version : String
  system : String
  system_version : String
  id_map : List (String × String)
deriving Repr, DecidableEq

/-- Result shape of the `export_to_foundry` tool. -/
structure ExportResult where
  entries : List ExportedDoc
  manifest : Manifest
deriving Repr, DecidableEq

/-- One iteration of the `include_related` loop of
`export_to_foundry`: try to export the reference's target and extend
the accumulated entries and `id_map`, or skip the reference when
`export_entry` raises (`except ValueError: pass`). -/
def relatedStep (db : LoreDb)
    (id_overrides : Option (List (String × String)))
    (acc : List ExportedDoc × List (String × String)) (ref : Ref) :
    List ExportedDoc × List (String × String) :=
  match export_entry db ref.target_slug id_overrides with
  | .ok related =>
      (acc.1 ++ [related],
       dictInsert acc.2 ref.target_slug
         (slug_to_foundry_id ref.target_slug))
  | .error _ => acc

/-- The `export_to_foundry` MCP tool: export the primary entry, then —
when `include_related` — walk the primary entry's outbound references
and export each target, skipping with `except ValueError: pass` any
that fail; record `slug_to_foundry_id` in `id_map` for each exported
slug. -/
def export_to_foundry (db : LoreDb) (now : String) (slug : String)
    (include_related : Bool := false)
    (id_overrides : Option (List (String × String)) := none) :
    Except String ExportResult := do
  let result ← export_entry db slug id_overrides
  let entries := [result]
  let id_map := dictInsert [] slug (slug_to_foundry_id slug)
  let (entries, id_map) :=
    if include_related then
      (get_references db slug).foldl (relatedStep db id_overrides)
        (entries, id_map)
    else
      (entries, id_map)
  return { entries := entries
           manifest := { exported_at := now
                         foundry_version := "12.343"
                         system := "lancer"
                         system_version := "2.11.1"
                         id_map := id_map } }

end Foundry

/- ## Entry Store (embedding of the loremap `create_entry` tool and
`ENTRY_SCHEMAS` from `schemas.py`) -/

namespace Store

open Foundry (Entry Ref LoreDb get_entry)

/-- Category and status enums of one entry type. -/
structure Schema where
  categories : List String
  statuses : List String
deriving Repr, DecidableEq

/-- `ENTRY_SCHEMAS`: the per-type category and status enums. -/
def ENTRY_SCHEMAS : List (String × Schema) :=
  [("location",
    { categories := ["planet", "moon", "station", "settlement", "region"]
      statuses := ["active", "abandoned", "contested", "restricted"] }),
   ("faction",
    { categories := ["corporation", "clan", "government", "insurgency",
                     "religious", "military", "other"]
      statuses := ["active", "dissolved", "underground", "rising",
                   "declining"] }),
   ("npc",
    { categories := ["leader", "diplomat", "soldier", "civilian",
                     "criminal", "scholar", "other"]
      statuses := ["alive", "dead", "missing", "unknown"] }),
   ("event",
    { categories := ["battle", "political", "disaster", "discovery",
                     "cultural", "personal"]
      statuses := ["historical", "ongoing", "imminent", "secret"] }),
   ("culture",
    { categories := ["ethnic", "regional", "religious", "professional",
                     "other"]
      statuses := ["active", "declining", "extinct", "evolving"] })]

/-- Split a character list on spaces (the pieces between space
characters, empties included). -/
def splitOnSpace (l : List Char) : List (List Char) :=
  l.foldr
    (fun c acc =>
      if c = ' ' then [] :: acc else (c :: acc.headD []) :: acc.tail)
    [[]]

/-- Slug base derivation from a name: lowercase, hyphen-joined words
("Generate slug from name (lowercase, hyphen-separated)"). -/
def slugify (name : String) : String :=
  ⟨List.intercalate ['-']
    (((splitOnSpace name.data).filter (· ≠ [])).map
      (·.map Char.toLower))⟩

/-- Little-endian decimal digits, with explicit fuel so that the
kernel can evaluate it (agrees with `Nat.digits 10` when the fuel is
at least `n`). -/
def decDigits : Nat → Nat → List Nat
  | 0, _ => []
  | _ + 1, 0 => []
  | fuel + 1, n + 1 => (n + 1) % 10 :: decDigits fuel ((n + 1) / 10)

/-- Decimal rendering of a number (most significant digit first). -/
def natToDec (n : Nat) : String :=
  ⟨((decDigits n n).map (fun d => Char.ofNat (48 + d))).reverse⟩

/-- The n-th slug candidate: the base slug itself, then the base with
the numeric suffixes `-2`, `-3`, ... -/
def slug_candidate (base : String) : Nat → String
  | 0 => base
  | n + 1 => base ++ "-" ++ natToDec (n + 2)

/-- Modelled from the spec: the collision-suffix rule of slug
generation is not implemented in the source (which only states
"Generate slug from name" and declares the `slug` column `UNIQUE`);
per §4.1 a numeric suffix is appended, deterministically increasing
until the slug is unique.  The first free candidate among
`base, base-2, base-3, ...` is chosen; at most `taken.length + 1`
candidates need to be examined. -/
def generate_slug (taken : List String) (name : String) : String :=
  match (List.range (taken.length + 1)).find?
      (fun n => !(taken.contains (slug_candidate (slugify name) n))) with
  | some n => slug_candidate (slugify name) n
  | none => slugify name

/-- A reference given to `create_entry`. -/
structure RefInput where
  target_slug : String
  target_type : String
  relationship : String
deriving Repr, DecidableEq

/-- Successful result of `create_entry`: the created entry and the
validation warnings. -/
structure CreateResult where
  entry : Entry
  warnings : List String
deriving Repr, DecidableEq

/-- The `create_entry` tool: generate the slug, validate type,
category and status against `ENTRY_SCHEMAS` (rejecting the write),
warn — without blocking — on reference targets that do not exist,
then insert the entry row and its reference rows.  On a validation
error the database is returned unchanged. -/
def create_entry (db : LoreDb) (type name category status summary
    content : String) (metadata : List (String × String))
    (references : List RefInput) (parent_slug : String) :
    Except String CreateResult × LoreDb :=
  match ENTRY_SCHEMAS.lookup type with
  | none => (.error ("Unknown entry type: " ++ type), db)
  | some schema =>
    if category ∉ schema.categories then
      (.error ("Invalid category for " ++ type ++ ": " ++ category), db)
    else if status ∉ schema.statuses then
      (.error ("Invalid status for " ++ type ++ ": " ++ status), db)
    else
      let warnings := references.filterMap fun r =>
        if get_entry db r.target_slug = none then
          some ("Reference target not found: " ++ r.target_slug)
        else none
      let slug := generate_slug (db.entries.map (·.slug)) name
      let entry : Entry :=
        { slug := slug, name := name, type := type, category := category
          status := status, summary := summary, content := content
          metadata := metadata, parent_slug := parent_slug }
      (.ok { entry := entry, warnings := warnings },
       { entries := db.entries ++ [entry]
         refs := db.refs ++ references.map fun r =>
           { source_slug := slug, target_slug := r.target_slug
             target_type := r.target_type
             relationship := r.relationship } })

end Store

/- ## Relatedness ranker (the `find_related` tool) -/

namespace Related

open Foundry (Entry Ref LoreDb get_entry)

/-- Fixed weight of the direct-reference tier (highest). -/
def W_DIRECT : Nat := 10

/-- Fixed weight of the shared-`parent_slug` tier. -/
def W_PARENT : Nat := 5

/-- Fixed weight of the shared-outbound-reference-target tier. -/
def W_SHARED : Nat := 3

/-- Fixed weight of the text-similarity tier (lowest). -/
def W_TEXT : Nat := 1

/-- Tier 1: a direct reference between the two entries, in either
direction. -/
def directlyLinked (db : LoreDb) (a b : String) : Bool :=
  db.refs.any fun r =>
    (r.source_slug = a ∧ r.target_slug = b) ∨
    (r.source_slug = b ∧ r.target_slug = a)

/-- Tier 2: a shared, nonempty `parent_slug`. -/
def sharedParent (e₁ e₂ : Entry) : Bool :=
  e₁.parent_slug ≠ "" ∧ e₁.parent_slug = e₂.parent_slug

/-- Tier 3: some outbound reference target shared by both entries. -/
def sharedTarget (db : LoreDb) (a b : String) : Bool :=
  db.refs.any fun r =>
    r.source_slug = a ∧ db.refs.any fun r' =>
      r'.source_slug = b ∧ r'.target_slug = r.target_slug

/-- Words of a string: split on spaces, nonempty. -/
def words (s : String) : List String :=
  (((Store.splitOnSpace s.data).filter (· ≠ [])).map fun l => (⟨l⟩ : String))

/-- Tier 4: full-text similarity — some word of the source entry's own
summary/content occurs in the candidate's name, summary or content. -/
def textSimilar (src cand : Entry) : Bool :=
  (words (src.summary ++ " " ++ src.content)).any fun w =>
    w ∈ words (cand.name ++ " " ++ cand.summary ++ " " ++ cand.content)

/-- Lexicographic (alphabetical) order on character lists, by code
point. -/
def listLe : List Char → List Char → Bool
  | [], _ => true
  | _ :: _, [] => false
  | x :: xs, y :: ys =>
    if x.toNat < y.toNat then true
    else if y.toNat < x.toNat then false
    else listLe xs ys

/-- Modelled from the spec: the relatedness score.  `find_related` has
no implementation in the source (the tool documentation only lists the
four tiers in precedence order); per §4.3 each satisfied tier
contributes its fixed weight additively. -/
def tierScore (db : LoreDb) (src cand : Entry) : Nat :=
  (if directlyLinked db src.slug cand.slug then W_DIRECT else 0) +
  (if sharedParent src cand then W_PARENT else 0) +
  (if sharedTarget db src.slug cand.slug then W_SHARED else 0) +
  (if textSimilar src cand then W_TEXT else 0)

/-- The ranking order: descending by summed score, ties broken
alphabetically by name. -/
def relLe (a b : Entry × Nat) : Bool :=
  b.2 < a.2 ∨ (a.2 = b.2 ∧ listLe a.1.name.data b.1.name.data)

/-- Insert into a `relLe`-sorted list. -/
def insertSorted (x : Entry × Nat) :
    List (Entry × Nat) → List (Entry × Nat)
  | [] => [x]
  | y :: ys => if relLe x y then x :: y :: ys else y :: insertSorted x ys

/-- Insertion sort by `relLe`. -/
def sortRel : List (Entry × Nat) → List (Entry × Nat)
  | [] => []
  | x :: xs => insertSorted x (sortRel xs)

/-- Modelled from the spec: `find_related(slug, limit)` — score every
other entry by the weighted tier union, keep those with a nonzero
score, sort descending by score with alphabetical-by-name ties, and
truncate to `limit`. -/
def find_related (db : LoreDb) (slug : String) (limit : Nat := 5) :
    List (Entry × Nat) :=
  match get_entry db slug with
  | none => []
  | some src =>
    let scored := (db.entries.filter fun e =>
      e.slug ≠ slug ∧ 0 < tierScore db src e).map fun e =>
        (e, tierScore db src e)
    (sortRel scored).take limit

end Related

/- ## Orchestrator boundary (the classifier path of
`Orchestrator.process_message`) -/

namespace Orch

/-- Classifier result: `{is_lore, entry_type}`. -/
structure Intent where
  is_lore_related : Bool
  entry_type : Option String
deriving Repr, DecidableEq

/-- Outcome of the classifier/extractor call for one turn: a parsed
intent, a raised error, or a timeout. -/
inductive ClassifierOutcome where
  | ok (intent : Intent)
  | failure (msg : String)
  | timeout
deriving Repr, DecidableEq

/-- The per-turn Context Package (§3). -/
structure ContextPackage where
  schema : String
  filled_fields : List (String × String)
  missing_required : List String
  related_entries : List String
  suggested_references : List String
  follow_up_questions : List String
deriving Repr, DecidableEq

/-- Modelled from the spec: `Orchestrator.process_message`'s classifier
boundary.  In the source the orchestrator methods are declared but
their bodies are stubs, so the §4.4 failure semantics are modelled:
a classifier failure or timeout is caught and treated as "not
lore-related" — the turn returns a null context and no exception
crosses the orchestrator boundary (`.error` is never produced).  A
parsed non-lore intent also returns a null context; a lore intent
returns the assembled context package. -/
def process_message (outcome : ClassifierOutcome)
    (build_context : Intent → ContextPackage) :
    Except String (Option ContextPackage) :=
  match outcome with
  | .failure _ => .ok none
  | .timeout => .ok none
  | .ok intent =>
      if intent.is_lore_related then .ok (some (build_context intent))
      else .ok none

end Orch

/- ## SSE stream parsing (embedding of `parseSseChunk` in
`frontend/src/hooks/useChat.ts`) -/

namespace Sse

/-- Split on a single character (`rawEvent.split('\n')`), keeping
empty pieces. -/
def splitOnChar (c : Char) : List Char → List (List Char)
  | [] => [[]]
  | x :: rest =>
    if x = c then [] :: splitOnChar c rest
    else
      match splitOnChar c rest with
      | [] => [[x]]
      | b :: bs => (x :: b) :: bs

/-- Split on a blank line (`input.split('\n\n')`): leftmost
non-overlapping occurrences of two consecutive newlines. -/
def splitBlocks : List Char → List (List Char)
  | '\n' :: '\n' :: rest => [] :: splitBlocks rest
  | c :: rest =>
    match splitBlocks rest with
    | [] => [[c]]
    | b :: bs => (c :: b) :: bs
  | [] => [[]]

/-- The whitespace removed by `String.prototype.trim` (ASCII part). -/
def isWS (c : Char) : Bool :=
  c = ' ' ∨ c = '\t' ∨ c = '\n' ∨ c = '\r' ∨ c = '\x0b' ∨ c = '\x0c'

/-- `line.trim()`. -/
def trimChars (l : List Char) : List Char :=
  ((l.dropWhile isWS).reverse.dropWhile isWS).reverse

/-- The per-block body of `parseSseChunk`'s loop: trim the block's
lines, drop empties, find the first `data:` line, and JSON-parse the
payload after the 5-character `data:` prefix.  `jsonParse` stands for
the external `JSON.parse` wrapped in the `try`/`catch`, returning
`none` where the source `continue`s. -/
def eventOfBlock {α : Type} (jsonParse : String → Option α)
    (rawEvent : List Char) : Option α :=
  let lines := ((splitOnChar '\n' rawEvent).map trimChars).filter
    (fun l => 0 < l.length)
  match lines.find? (fun l => l.take 5 = "data:".data) with
  | none => none
  | some dataLine => jsonParse ⟨trimChars (dataLine.drop 5)⟩

/-- `parseSseChunk`: split the chunk on blank lines and accumulate the
events of the blocks that yield one, skipping (`continue`) blocks with
no `data:` line and blocks whose payload fails to parse. -/
def parseSseChunk {α : Type} (jsonParse : String → Option α)
    (input : String) : List α :=
  (splitBlocks input.data).foldl
    (fun events rawEvent =>
      match eventOfBlock jsonParse rawEvent with
      | none => events
      | some ev => events ++ [ev])
    []

end Sse

/- ## Markdown rendering (embedding of `escapeHtml` and
`renderMarkdown` in `frontend/src/components/MessageBubble.tsx`)

The JS functions work by sequential global regex replacement over the
whole string.  The embedding works over `List Char` and performs each
replacement pass by a left-to-right scan with the same match semantics
as the corresponding regex (`String.prototype.replace` with the `g`
flag: leftmost match first, continue after each match, advance one
position on a failed match attempt).  Each pass returns the list of
output pieces — copied input spans and the fixed replacement-template
fragments — whose concatenation is the replaced string. -/

namespace Markdown

/-- One global single-character replacement
(`input.replace(/c/g, rep)`). -/
def replaceChar (c : Char) (rep : List Char) (l : List Char) :
    List Char :=
  l.flatMap fun x => if x = c then rep else [x]

/-- `escapeHtml`: the five sequential replacements, ampersand first. -/
def escapeHtml (l : List Char) : List Char :=
  replaceChar '\'' "&#39;".data
    (replaceChar '"' "&quot;".data
      (replaceChar '>' "&gt;".data
        (replaceChar '<' "&lt;".data
          (replaceChar '&' "&amp;".data l))))

/-- Replacement template: everything of the fenced-code-block
substitution before the captured group. -/
def tplCodeOpen : List Char :=
  ("<div class=\"not-prose group relative my-2\">" ++
   "<button type=\"button\" data-copy-code-block=\"true\" " ++
   "class=\"absolute right-2 top-2 z-10 inline-flex items-center " ++
   "rounded-md border border-gray-700 bg-gray-900/90 px-2 py-1 " ++
   "text-xs text-gray-200 transition hover:bg-gray-800 " ++
   "hover:text-white\">Copy</button>" ++
   "<pre class=\"overflow-x-auto rounded bg-gray-950 p-3 pt-10\">" ++
   "<code>").data

/-- Fenced-code-block template after the captured group. -/
def tplCodeClose : List Char := "</code></pre></div>".data

/-- Inline-code template before the captured group. -/
def tplInlineOpen : List Char :=
  ("<code data-inline-copy=\"true\" class=\"cursor-pointer rounded " ++
   "border border-transparent bg-gray-950 px-1 py-0.5 text-xs " ++
   "transition hover:border-gray-700 hover:bg-gray-900\">").data

/-- Inline-code template after the captured group. -/
def tplInlineClose : List Char := "</code>".data

/-- Bold template pieces. -/
def tplStrongOpen : List Char := "<strong>".data

/-- Bold closing template. -/
def tplStrongClose : List Char := "</strong>".data

/-- Emphasis opening template. -/
def tplEmOpen : List Char := "<em>".data

/-- Emphasis closing template. -/
def tplEmClose : List Char := "</em>".data

/-- Link template before the captured URL. -/
def tplAOpen : List Char := "<a class=\"text-blue-300 underline\" href=\"".data

/-- Link template between the captured URL and the captured text. -/
def tplAMid : List Char := "\" target=\"_blank\" rel=\"noreferrer\">".data

/-- Link closing template. -/
def tplAClose : List Char := "</a>".data

/-- List-opening template. -/
def tplUlOpen : List Char := "<ul class=\"my-2 list-disc pl-5\">".data

/-- List-closing template. -/
def tplUlClose : List Char := "</ul>".data

/-- List-item opening template. -/
def tplLiOpen : List Char := "<li>".data

/-- List-item closing template. -/
def tplLiClose : List Char := "</li>".data

/-- Line-join template. -/
def tplBr : List Char := "<br />".data

/-- Split at the first occurrence of a character. -/
def splitChar (c : Char) : List Char → Option (List Char × List Char)
  | [] => none
  | x :: xs =>
    if x = c then some ([], xs)
    else (splitChar c xs).map fun p => (x :: p.1, p.2)

lemma splitChar_eq {c : Char} :
    ∀ {l p}, splitChar c l = some p → l = p.1 ++ c :: p.2 := by
  intro l
  induction l with
  | nil => intro p h; simp [splitChar] at h
  | cons x xs ih =>
    intro p h
    simp only [splitChar] at h
    split at h
    · next hx => cases h; simp [hx]
    · cases hrec : splitChar c xs with
      | none => rw [hrec] at h; simp at h
      | some q =>
        rw [hrec] at h
        simp only [Option.map_some'] at h
        cases h
        simp [ih hrec]

/-- Split at the first occurrence of a triple-backtick fence. -/
def splitFence : List Char → Option (List Char × List Char)
  | [] => none
  | x :: xs =>
    if x = '`' ∧ xs.head? = some '`' ∧ xs.tail.head? = some '`' then
      some ([], xs.tail.tail)
    else
      (splitFence xs).map fun p => (x :: p.1, p.2)

lemma splitFence_eq :
    ∀ {l p}, splitFence l = some p →
      l = p.1 ++ '`' :: '`' :: '`' :: p.2 := by
  intro l
  induction l with
  | nil => intro p h; simp [splitFence] at h
  | cons x xs ih =>
    intro p h
    simp only [splitFence] at h
    split at h
    · next hcond =>
      obtain ⟨hx, hy, hz⟩ := hcond
      cases h
      cases xs with
      | nil => simp at hy
      | cons y ys =>
        cases ys with
        | nil => simp at hz
        | cons z zs =>
          simp only [List.head?_cons, Option.some.injEq] at hy
          simp only [List.tail_cons, List.head?_cons,
            Option.some.injEq] at hz
          simp [hx, hy, hz]
    · cases hrec : splitFence xs with
      | none => rw [hrec] at h; simp at h
      | some q =>
        rw [hrec] at h
        simp only [Option.map_some'] at h
        cases h
        simp [ih hrec]

/-- Split at the first occurrence of a double star. -/
def splitStar2 : List Char → Option (List Char × List Char)
  | [] => none
  | x :: xs =>
    if x = '*' ∧ xs.head? = some '*' then some ([], xs.tail)
    else (splitStar2 xs).map fun p => (x :: p.1, p.2)

lemma splitStar2_eq :
    ∀ {l p}, splitStar2 l = some p → l = p.1 ++ '*' :: '*' :: p.2 := by
  intro l
  induction l with
  | nil => intro p h; simp [splitStar2] at h
  | cons x xs ih =>
    intro p h
    simp only [splitStar2] at h
    split at h
    · next hcond =>
      obtain ⟨hx, hy⟩ := hcond
      cases h
      cases xs with
      | nil => simp at hy
      | cons y ys =>
        simp only [List.head?_cons, Option.some.injEq] at hy
        simp [hx, hy]
    · cases hrec : splitStar2 xs with
      | none => rw [hrec] at h; simp at h
      | some q =>
        rw [hrec] at h
        simp only [Option.map_some'] at h
        cases h
        simp [ih hrec]

/-- The fenced-code-block pass
(`/` ``` `([\s\S]*?)` ``` `/g`): lazily pair successive fences; an
unpaired trailing fence is left as literal text. -/
def codeBlocks (l : List Char) : List (List Char) :=
  match h1 : splitFence l with
  | none => [l]
  | some (pre, rest) =>
    match h2 : splitFence rest with
    | none => [l]
    | some (mid, rest2) =>
      pre :: tplCodeOpen :: mid :: tplCodeClose :: codeBlocks rest2
termination_by l.length
decreasing_by
  have e1 := splitFence_eq h1
  have e2 := splitFence_eq h2
  rw [e1, e2]
  simp [List.length_append]
  omega

/-- The inline-code pass (`` /`([^`]+?)`/g ``): an opening backtick
pairs with the next backtick when at least one non-backtick character
lies between; an immediately following backtick leaves the first one
literal and retries from the second. -/
def inlineCode (l : List Char) : List (List Char) :=
  match h1 : splitChar '`' l with
  | none => [l]
  | some (pre, rest) =>
    match h2 : splitChar '`' rest with
    | none => [l]
    | some (mid, rest2) =>
      if mid.isEmpty then (pre ++ ['`']) :: inlineCode ('`' :: rest2)
      else pre :: tplInlineOpen :: mid :: tplInlineClose :: inlineCode rest2
termination_by l.length
decreasing_by
  · have e1 := splitChar_eq h1
    have e2 := splitChar_eq h2
    rw [e1, e2]
    simp [List.length_append]
    omega
  · have e1 := splitChar_eq h1
    have e2 := splitChar_eq h2
    rw [e1, e2]
    simp [List.length_append]
    omega

/-- The bold pass (`/\*\*([^*]+)\*\*/g`): a double star opens a match
that must close with a double star after a nonempty star-free run; a
failed opener advances the scan as the regex engine does. -/
def boldStage (l : List Char) : List (List Char) :=
  match h1 : splitStar2 l with
  | none => [l]
  | some (pre, rest) =>
    match h2 : rest.dropWhile (· ≠ '*') with
    | [] => [l]
    | hd :: rest3 =>
      if (rest.takeWhile (· ≠ '*')).isEmpty then
        (pre ++ ['*']) :: boldStage ('*' :: rest)
      else if rest3.head? = some '*' then
        pre :: tplStrongOpen :: rest.takeWhile (· ≠ '*') ::
          tplStrongClose :: boldStage rest3.tail
      else
        (pre ++ '*' :: '*' :: rest.takeWhile (· ≠ '*') ++ [hd]) ::
          boldStage rest3
termination_by l.length
decreasing_by
  · have e1 := splitStar2_eq h1
    rw [e1]
    simp [List.length_append]
    omega
  · have e1 := splitStar2_eq h1
    have e2 := congrArg List.length
      (List.takeWhile_append_dropWhile (· ≠ '*') rest)
    rw [h2] at e2
    simp [List.length_append] at e2
    have e3 : rest3.tail.length ≤ rest3.length := by
      cases rest3 <;> simp
    rw [e1]
    simp [List.length_append]
    omega
  · have e1 := splitStar2_eq h1
    have e2 := congrArg List.length
      (List.takeWhile_append_dropWhile (· ≠ '*') rest)
    rw [h2] at e2
    simp [List.length_append] at e2
    rw [e1]
    simp [List.length_append]
    omega

/-- The emphasis pass (`/\*([^*]+)\*/g`). -/
def emStage (l : List Char) : List (List Char) :=
  match h1 : splitChar '*' l with
  | none => [l]
  | some (pre, rest) =>
    match h2 : rest.dropWhile (· ≠ '*') with
    | [] => [l]
    | _ :: rest3 =>
      if (rest.takeWhile (· ≠ '*')).isEmpty then
        (pre ++ ['*']) :: emStage rest
      else
        pre :: tplEmOpen :: rest.takeWhile (· ≠ '*') :: tplEmClose ::
          emStage rest3
termination_by l.length
decreasing_by
  · have e1 := splitChar_eq h1
    rw [e1]
    simp [List.length_append]
    omega
  · have e1 := splitChar_eq h1
    have e2 := congrArg List.length
      (List.takeWhile_append_dropWhile (· ≠ '*') rest)
    rw [h2] at e2
    simp [List.length_append] at e2
    rw [e1]
    simp [List.length_append]
    omega

/-- The characters matched by the JavaScript `\s` class, restricted to
ASCII whitespace. -/
def isSpaceChar (c : Char) : Bool :=
  c = ' ' ∨ c = '\t' ∨ c = '\n' ∨ c = '\r' ∨ c = '\x0b' ∨ c = '\x0c'

/-- Recognise `https://` or `http://` (`https?:\/\/`) at the head of a
list, returning the scheme and the remainder. -/
def stripScheme (l : List Char) : Option (List Char × List Char) :=
  if l.take 8 = "https://".data then some ("https://".data, l.drop 8)
  else if l.take 7 = "http://".data then some ("http://".data, l.drop 7)
  else none

/-- Attempt to complete a link match directly after an opening `[`:
a nonempty `]`-free text, then `](`, then the URL
(`https?:\/\/[^\s)]+`), then `)`.  Returns the captured text, the
captured URL and the remainder. -/
def parseLink (rest : List Char) :
    Option (List Char × List Char × List Char) :=
  let text := rest.takeWhile (· ≠ ']')
  let after := rest.dropWhile (· ≠ ']')
  if text.isEmpty ∨ after.take 2 ≠ [']', '('] then none
  else
    (stripScheme (after.drop 2)).bind fun sr =>
      let body := sr.2.takeWhile fun c => ¬ isSpaceChar c ∧ c ≠ ')'
      let close := sr.2.dropWhile fun c => ¬ isSpaceChar c ∧ c ≠ ')'
      if body.isEmpty ∨ close.head? ≠ some ')' then none
      else some (text, sr.1 ++ body, close.tail)

lemma stripScheme_eq {l p} (h : stripScheme l = some p) :
    l = p.1 ++ p.2 ∧ (p.1 = "https://".data ∨ p.1 = "http://".data) := by
  simp only [stripScheme] at h
  split at h
  · next h8 =>
    cases h
    refine ⟨?_, Or.inl rfl⟩
    conv_lhs => rw [← List.take_append_drop 8 l]
    rw [h8]
  · split at h
    · next h7 =>
      cases h
      refine ⟨?_, Or.inr rfl⟩
      conv_lhs => rw [← List.take_append_drop 7 l]
      rw [h7]
    · simp at h

lemma parseLink_eq {rest t u r4}
    (h : parseLink rest = some (t, u, r4)) :
    rest = t ++ ']' :: '(' :: u ++ ')' :: r4 := by
  simp only [parseLink] at h
  split at h
  · simp at h
  · next hc1 =>
    push_neg at hc1
    obtain ⟨-, htake2⟩ := hc1
    cases hscheme : stripScheme ((rest.dropWhile (· ≠ ']')).drop 2) with
    | none => rw [hscheme] at h; simp at h
    | some p =>
      obtain ⟨scheme, r3⟩ := p
      rw [hscheme] at h
      simp only [Option.some_bind] at h
      obtain ⟨hsch, -⟩ := stripScheme_eq hscheme
      split at h
      · simp at h
      · next hc2 =>
        push_neg at hc2
        obtain ⟨-, hhead⟩ := hc2
        simp only [Option.some.injEq, Prod.mk.injEq] at h
        obtain ⟨ht, hu, hr4⟩ := h
        have hrest := List.takeWhile_append_dropWhile (· ≠ ']') rest
        have hafter : rest.dropWhile (· ≠ ']') =
            [']', '('] ++ (rest.dropWhile (· ≠ ']')).drop 2 := by
          conv_lhs => rw [← List.take_append_drop 2
            (rest.dropWhile (· ≠ ']'))]
          rw [htake2]
        have hr3 := List.takeWhile_append_dropWhile
          (fun c => ¬ isSpaceChar c ∧ c ≠ ')') r3
        have hclose : r3.dropWhile (fun c => ¬ isSpaceChar c ∧ c ≠ ')') =
            ')' :: (r3.dropWhile fun c => ¬ isSpaceChar c ∧ c ≠ ')').tail := by
          cases hcl : r3.dropWhile (fun c => ¬ isSpaceChar c ∧ c ≠ ')') with
          | nil => rw [hcl] at hhead; simp at hhead
          | cons a as =>
            rw [hcl] at hhead
            simp only [List.head?_cons] at hhead
            cases hhead
            simp
        subst ht hu hr4
        calc rest = rest.takeWhile (· ≠ ']') ++ rest.dropWhile (· ≠ ']') :=
              hrest.symm
          _ = rest.takeWhile (· ≠ ']') ++
              ([']', '('] ++ (rest.dropWhile (· ≠ ']')).drop 2) := by
              rw [← hafter]
          _ = rest.takeWhile (· ≠ ']') ++
              ([']', '('] ++ (scheme ++ r3)) := by rw [← hsch]
          _ = _ := by
              conv_lhs => rw [← hr3]
              rw [hclose]
              simp

/-- The link pass
(`/\[([^\]]+)\]\((https?:\/\/[^\s)]+)\)/g`): each `[` either opens a
complete link match or stays literal while the scan continues after
it. -/
def linksStage (l : List Char) : List (List Char) :=
  match h1 : splitChar '[' l with
  | none => [l]
  | some (pre, rest) =>
    match h2 : parseLink rest with
    | some (text, url, r4) =>
      pre :: tplAOpen :: url :: tplAMid :: text :: tplAClose ::
        linksStage r4
    | none => (pre ++ ['[']) :: linksStage rest
termination_by l.length
decreasing_by
  · have e1 := splitChar_eq h1
    have e2 := parseLink_eq h2
    rw [e1, e2]
    simp [List.length_append]
    omega
  · have e1 := splitChar_eq h1
    rw [e1]
    simp [List.length_append]
    omega

/-- Split into lines (`text.split('\n')`). -/
def splitLines (l : List Char) : List (List Char) :=
  match h : splitChar '\n' l with
  | none => [l]
  | some (pre, rest) => pre :: splitLines rest
termination_by l.length
decreasing_by
  have e := splitChar_eq h
  rw [e]
  simp [List.length_append]
  omega

/-- Test a line against `/^\s*[-*]\s+/` and, on a match, strip the
matched prefix (leading whitespace, one `-` or `*` marker, and at
least one further whitespace character). -/
def listItemBody (line : List Char) : Option (List Char) :=
  match line.dropWhile isSpaceChar with
  | [] => none
  | c :: rest =>
    if (c = '-' ∨ c = '*') ∧ ¬ (rest.takeWhile isSpaceChar).isEmpty then
      some (rest.dropWhile isSpaceChar)
    else none

/-- The line loop of `renderMarkdown`: wrap list items in
`<li>`/`</li>`, opening `<ul>` when a run of items starts and closing
it when the run (or the input) ends. -/
def renderLines : List (List Char) → Bool → List (List Char)
  | [], inList => if inList then [tplUlClose] else []
  | line :: rest, inList =>
    match listItemBody line with
    | some body =>
      if inList then
        (tplLiOpen ++ body ++ tplLiClose) :: renderLines rest true
      else
        tplUlOpen :: (tplLiOpen ++ body ++ tplLiClose) ::
          renderLines rest true
    | none =>
      if inList then tplUlClose :: line :: renderLines rest false
      else line :: renderLines rest false

/-- `renderedLines.join('<br />')`. -/
def joinBr : List (List Char) → List Char
  | [] => []
  | [x] => x
  | x :: xs => x ++ tplBr ++ joinBr xs

/-- `renderMarkdown`: escape the HTML metacharacters first, then apply
the five substitution passes and the line/list pass. -/
def renderMarkdown (s : String) : String :=
  let text := escapeHtml s.data
  let text := (codeBlocks text).flatten
  let text := (inlineCode text).flatten
  let text := (boldStage text).flatten
  let text := (emStage text).flatten
  let text := (linksStage text).flatten
  ⟨joinBr (renderLines (splitLines text) false)⟩

end Markdown

/-- Decidable equality for `Except` (not provided by the library),
needed to evaluate the export functions inside `decide`. -/
instance {ε α : Type} [DecidableEq ε] [DecidableEq α] :
    DecidableEq (Except ε α)
  | .ok a, .ok b =>
    if h : a = b then .isTrue (by rw [h]) else .isFalse (by simp [h])
  | .error e, .error f =>
    if h : e = f then .isTrue (by rw [h]) else .isFalse (by simp [h])
  | .ok _, .error _ => .isFalse (by simp)
  | .error _, .ok _ => .isFalse (by simp)

namespace Markdown

/-- The fixed HTML fragments that `renderMarkdown`'s substitutions can
emit (the only sources of markup characters in its output). -/
def TEMPLATES : List (List Char) :=
  [tplCodeOpen, tplCodeClose, tplInlineOpen, tplInlineClose,
   tplStrongOpen, tplStrongClose, tplEmOpen, tplEmClose,
   tplAOpen, tplAMid, tplAClose, tplUlOpen, tplUlClose,
   tplLiOpen, tplLiClose, tplBr]

/-- A span of inert text: it contains none of the four HTML
metacharacters that could open a tag or break out of a quoted
attribute. -/
def Clean (l : List Char) : Prop :=
  '<' ∉ l ∧ '>' ∉ l ∧ '"' ∉ l ∧ '\'' ∉ l

/-- A safe output string: a concatenation of segments, each either one
of the renderer's fixed templates or an inert text span — so the only
HTML elements present are the renderer's own. -/
def Safe (l : List Char) : Prop :=
  ∃ segs : List (List Char),
    l = segs.flatten ∧ ∀ s ∈ segs, s ∈ TEMPLATES ∨ Clean s

end Markdown

/- ## Concrete fixtures used by the witnesses and counterexamples -/

namespace Fixtures

open Foundry

/-- An npc entry. -/
def kael : Entry :=
  { slug := "kael-vasuda", name := "Kael Vasuda", type := "npc"
    category := "criminal", status := "alive"
    summary := "A fixer in the underworld of Seicoe Station."
    content := "Kael runs contraband through the station docks."
    metadata := [("faction_slug", ""), ("location_slug", "seicoe-station")]
    parent_slug := "" }

/-- A location entry. -/
def seicoe : Entry :=
  { slug := "seicoe-station", name := "Seicoe Station", type := "location"
    category := "station", status := "active"
    summary := "An orbital station above Taito."
    content := "The station is a trade hub."
    metadata := [("controlled_by", ""), ("population", "120000")]
    parent_slug := "" }

/-- An entry whose type has no export formatter. -/
def relic : Entry :=
  { slug := "old-relic", name := "Old Relic", type := "artifact"
    category := "other", status := "unknown"
    summary := "A mysterious artifact.", content := "Origin unknown."
    metadata := [], parent_slug := "" }

/-- Reference: kael → seicoe (target exists). -/
def kaelRefSeicoe : Ref :=
  { source_slug := "kael-vasuda", target_slug := "seicoe-station"
    target_type := "location", relationship := "operates from" }

/-- Reference: kael → ghost-station (target missing). -/
def kaelRefGhost : Ref :=
  { source_slug := "kael-vasuda", target_slug := "ghost-station"
    target_type := "location", relationship := "rumored base" }

/-- Reference: kael → old-relic (target exists, type unsupported). -/
def kaelRefRelic : Ref :=
  { source_slug := "kael-vasuda", target_slug := "old-relic"
    target_type := "artifact", relationship := "owns" }

/-- The export-test database. -/
def expDb : LoreDb :=
  { entries := [kael, seicoe, relic]
    refs := [kaelRefSeicoe, kaelRefGhost, kaelRefRelic] }

/-- A default export result for `getD`. -/
def emptyRes : ExportResult := ⟨[], ⟨"", "", "", "", []⟩⟩

/-- The computed result of exporting `kael-vasuda` alone. -/
def res1 : ExportResult :=
  (export_to_foundry expDb "2026-01-01T00:00:00" "kael-vasuda" false
    none).toOption.getD emptyRes

/-- The computed result of exporting `kael-vasuda` with
`include_related` in a separate call. -/
def res2 : ExportResult :=
  (export_to_foundry expDb "2026-02-02T00:00:00" "kael-vasuda" true
    none).toOption.getD emptyRes

/-- The computed result of exporting `kael-vasuda` with an id override
for `seicoe-station`. -/
def res3 : ExportResult :=
  (export_to_foundry expDb "t" "kael-vasuda" true
    (some [("seicoe-station", "ZZZZZZZZZZZZZZZZ")])).toOption.getD
    emptyRes

/-- A default create result for `getD`. -/
def emptyCreate : Store.CreateResult :=
  ⟨{ slug := "", name := "", type := "", category := "", status := ""
     summary := "", content := "", metadata := [], parent_slug := "" }, []⟩

/-- The empty store. -/
def c4db0 : LoreDb := ⟨[], []⟩

/-- First create of "Kael Vasuda". -/
def c4step1 : Except String Store.CreateResult × LoreDb :=
  Store.create_entry c4db0 "npc" "Kael Vasuda" "criminal" "alive"
    "A fixer." "Body." [] [] ""

/-- Result of the first create. -/
def c4res1 : Store.CreateResult := c4step1.1.toOption.getD emptyCreate

/-- Store after the first create. -/
def c4db1 : LoreDb := c4step1.2

/-- Second create with the same name (slug collision). -/
def c4step2 : Except String Store.CreateResult × LoreDb :=
  Store.create_entry c4db1 "npc" "Kael Vasuda" "criminal" "alive"
    "A different fixer." "Body 2." [] [] ""

/-- Result of the colliding create. -/
def c4res2 : Store.CreateResult := c4step2.1.toOption.getD emptyCreate

/-- Store after the colliding create. -/
def c4db2 : LoreDb := c4step2.2

/-- A create with a category outside the npc enum. -/
def c5bad : Except String Store.CreateResult × LoreDb :=
  Store.create_entry c4db1 "npc" "Other Person" "pirate" "alive"
    "s" "c" [] [] ""

/-- The npc schema, for explicit witnesses. -/
def npcSchema : Store.Schema :=
  (Store.ENTRY_SCHEMAS.lookup "npc").getD ⟨[], []⟩

/-- An entry related to `kael` only through text similarity (shares
the word "fixer" with kael's summary; no references, no parent). -/
def fixerEntry : Entry :=
  { slug := "dock-fixer", name := "Dock Fixer", type := "npc"
    category := "criminal", status := "alive"
    summary := "A fixer too", content := "Works the docks"
    metadata := [], parent_slug := "" }

/-- The relatedness-test database. -/
def c6Db : LoreDb :=
  { entries := expDb.entries ++ [fixerEntry], refs := expDb.refs }

/-- A concrete stand-in for `JSON.parse` in the SSE witness: accepts
exactly the payload "ok". -/
def c10parse : String → Option Nat :=
  fun s => if s = "ok" then some 0 else none

/-- The SSE chunk used by the C10 witness: a good block, a block with
no data line, and a block whose payload does not parse. -/
def c10input : String := "data: ok

noise

data: bad"

end Fixtures

/- ## Theorems -/

example : Sha256.hexdigest "abc" =
    "ba7816bf8f01cfea414140de5dae2223b00361a396177a9cb410ff61f20015ad" := by
  decide

example : Sha256.hexdigest "" =
    "e3b0c44298fc1c149afbf4c8996fb92427ae41e4649b934ca495991b7852b855" := by
  decide

namespace Foundry

lemma export_entry_none {db : LoreDb} {s : String}
    {ov : Option (List (String × String))} (h : get_entry db s = none) :
    export_entry db s ov = .error ("Entry not found: " ++ s) := by
  simp [export_entry, h]

lemma export_entry_unsupported {db : LoreDb} {s : String}
    {ov : Option (List (String × String))} {e : Entry}
    (hget : get_entry db s = some e) (ht : e.type ∉ formatter_types) :
    export_entry db s ov = .error ("Unsupported type: " ++ e.type) := by
  simp [export_entry, hget, ht]

lemma export_entry_supported {db : LoreDb} {s : String}
    {ov : Option (List (String × String))} {e : Entry}
    (hget : get_entry db s = some e) (ht : e.type ∈ formatter_types) :
    export_entry db s ov = .ok
      { slug := s
        filename := "fvtt-JournalEntry-" ++ s ++ ".json"
        json := { name := e.name
                  page_type := (MEJ_PAGE_TYPES.lookup e.type).getD ""
                  html_content := markdown_markdown e.content
                  relationships := (get_references db s).filterMap fun ref =>
                    (get_entry db ref.target_slug).map fun target =>
                      build_relationship ref.target_slug target.name
                        ref.target_type ref.relationship }
        type := e.type
        foundry_type := (MEJ_PAGE_TYPES.lookup e.type).getD "" } := by
  simp [export_entry, hget, ht]

lemma export_entry_ok_slug {db : LoreDb} {s : String}
    {ov : Option (List (String × String))} {d : ExportedDoc}
    (h : export_entry db s ov = .ok d) : d.slug = s := by
  cases hget : get_entry db s with
  | none => rw [export_entry_none hget] at h; cases h
  | some e =>
    by_cases ht : e.type ∈ formatter_types
    · rw [export_entry_supported hget ht] at h
      cases h
      rfl
    · rw [export_entry_unsupported hget ht] at h
      cases h

lemma export_entry_ok_entry {db : LoreDb} {s : String}
    {ov : Option (List (String × String))} {d : ExportedDoc}
    (h : export_entry db s ov = .ok d) :
    ∃ e, get_entry db s = some e ∧ e.type ∈ formatter_types := by
  cases hget : get_entry db s with
  | none => rw [export_entry_none hget] at h; cases h
  | some e =>
    by_cases ht : e.type ∈ formatter_types
    · exact ⟨e, rfl, ht⟩
    · rw [export_entry_unsupported hget ht] at h
      cases h

lemma dictInsert_mem_keys {l : List (String × String)} {k v s : String} :
    (∃ i, (s, i) ∈ dictInsert l k v) ↔ (∃ i, (s, i) ∈ l) ∨ s = k := by
  unfold dictInsert
  split
  · next hany =>
    constructor
    · rintro ⟨i, hi⟩
      rcases List.mem_map.mp hi with ⟨p, hp, heq⟩
      by_cases hpk : p.1 = k
      · simp only [if_pos hpk] at heq
        right
        cases heq
        rfl
      · simp only [if_neg hpk] at heq
        left
        exact ⟨i, heq ▸ hp⟩
    · rintro (⟨i, hi⟩ | rfl)
      · by_cases hsk : s = k
        · subst hsk
          rcases List.any_eq_true.mp hany with ⟨p, hp, hpk⟩
          refine ⟨v, List.mem_map.mpr ⟨p, hp, ?_⟩⟩
          simp only [decide_eq_true_eq] at hpk
          simp [hpk]
        · refine ⟨i, List.mem_map.mpr ⟨(s, i), hi, ?_⟩⟩
          simp [hsk]
      · rcases List.any_eq_true.mp hany with ⟨p, hp, hpk⟩
        refine ⟨v, List.mem_map.mpr ⟨p, hp, ?_⟩⟩
        simp only [decide_eq_true_eq] at hpk
        simp [hpk]
  · next hany =>
    constructor
    · rintro ⟨i, hi⟩
      rcases List.mem_append.mp hi with hmem | hmem
      · exact Or.inl ⟨i, hmem⟩
      · right
        simp only [List.mem_singleton, Prod.mk.injEq] at hmem
        exact hmem.1
    · rintro (⟨i, hi⟩ | rfl)
      · exact ⟨i, List.mem_append.mpr (Or.inl hi)⟩
      · exact ⟨v, List.mem_append.mpr (Or.inr (by simp))⟩

lemma dictInsert_values {l : List (String × String)} {k v : String}
    {P : String × String → Prop} (hl : ∀ p ∈ l, P p) (hkv : P (k, v)) :
    ∀ p ∈ dictInsert l k v, P p := by
  intro p hp
  unfold dictInsert at hp
  split at hp
  · rcases List.mem_map.mp hp with ⟨q, hq, heq⟩
    by_cases hqk : q.1 = k
    · simp only [if_pos hqk] at heq
      exact heq ▸ hkv
    · simp only [if_neg hqk] at heq
      exact heq ▸ hl q hq
  · rcases List.mem_append.mp hp with hmem | hmem
    · exact hl p hmem
    · simp only [List.mem_singleton] at hmem
      exact hmem ▸ hkv

lemma foldl_relatedStep_entries (db : LoreDb)
    (ov : Option (List (String × String))) :
    ∀ (refs : List Ref) (acc : List ExportedDoc × List (String × String)),
      (refs.foldl (relatedStep db ov) acc).1 =
        acc.1 ++ refs.filterMap fun ref =>
          (export_entry db ref.target_slug ov).toOption := by
  intro refs
  induction refs with
  | nil => intro acc; simp
  | cons r rs ih =>
    intro acc
    simp only [List.foldl_cons, List.filterMap_cons]
    cases hexp : export_entry db r.target_slug ov with
    | ok d =>
      rw [show relatedStep db ov acc r =
        (acc.1 ++ [d],
         dictInsert acc.2 r.target_slug
           (slug_to_foundry_id r.target_slug)) by
        simp [relatedStep, hexp]]
      rw [ih]
      simp [hexp, Except.toOption]
    | error msg =>
      rw [show relatedStep db ov acc r = acc by simp [relatedStep, hexp]]
      rw [ih]
      simp [hexp, Except.toOption]

lemma foldl_relatedStep_idmap_keys (db : LoreDb)
    (ov : Option (List (String × String))) :
    ∀ (refs : List Ref) (acc : List ExportedDoc × List (String × String))
      (s : String),
      (∃ i, (s, i) ∈ (refs.foldl (relatedStep db ov) acc).2) ↔
        (∃ i, (s, i) ∈ acc.2) ∨
          ∃ r ∈ refs, r.target_slug = s ∧
            (export_entry db r.target_slug ov).isOk := by
  intro refs
  induction refs with
  | nil => intro acc s; simp
  | cons r rs ih =>
    intro acc s
    simp only [List.foldl_cons]
    cases hexp : export_entry db r.target_slug ov with
    | ok d =>
      rw [show relatedStep db ov acc r =
        (acc.1 ++ [d],
         dictInsert acc.2 r.target_slug
           (slug_to_foundry_id r.target_slug)) by
        simp [relatedStep, hexp]]
      rw [ih]
      simp only [dictInsert_mem_keys]
      constructor
      · rintro (((⟨i, hi⟩ | rfl)) | ⟨r', hr', rfl, hok⟩)
        · exact Or.inl ⟨i, hi⟩
        · exact Or.inr ⟨r, by simp, rfl, by simp [hexp, Except.isOk, Except.toBool]⟩
        · exact Or.inr ⟨r', by simp [hr'], rfl, hok⟩
      · rintro ((⟨i, hi⟩) | ⟨r', hr', rfl, hok⟩)
        · exact Or.inl (Or.inl ⟨i, hi⟩)
        · rcases List.mem_cons.mp hr' with rfl | hr'
          · exact Or.inl (Or.inr rfl)
          · exact Or.inr ⟨r', hr', rfl, hok⟩
    | error msg =>
      rw [show relatedStep db ov acc r = acc by simp [relatedStep, hexp]]
      rw [ih]
      constructor
      · rintro (⟨i, hi⟩ | ⟨r', hr', rfl, hok⟩)
        · exact Or.inl ⟨i, hi⟩
        · exact Or.inr ⟨r', by simp [hr'], rfl, hok⟩
      · rintro (⟨i, hi⟩ | ⟨r', hr', rfl, hok⟩)
        · exact Or.inl ⟨i, hi⟩
        · rcases List.mem_cons.mp hr' with rfl | hr'
          · rw [hexp] at hok
            simp [Except.isOk, Except.toBool] at hok
          · exact Or.inr ⟨r', hr', rfl, hok⟩

set_option maxHeartbeats 1000000 in
lemma foldl_relatedStep_idmap_values (db : LoreDb)
    (ov : Option (List (String × String))) :
    ∀ (refs : List Ref) (acc : List ExportedDoc × List (String × String)),
      (∀ p ∈ acc.2, p.2 = slug_to_foundry_id p.1) →
      ∀ p ∈ (refs.foldl (relatedStep db ov) acc).2,
        p.2 = slug_to_foundry_id p.1 := by
  intro refs
  induction refs with
  | nil => intro acc hacc; simpa using hacc
  | cons r rs ih =>
    intro acc hacc
    simp only [List.foldl_cons]
    cases hexp : export_entry db r.target_slug ov with
    | ok d =>
      rw [show relatedStep db ov acc r =
        (acc.1 ++ [d],
         dictInsert acc.2 r.target_slug
           (slug_to_foundry_id r.target_slug)) by
        simp [relatedStep, hexp]]
      have hstep : ∀ p ∈ dictInsert acc.2 r.target_slug
          (slug_to_foundry_id r.target_slug),
          p.2 = slug_to_foundry_id p.1 :=
        dictInsert_values hacc rfl
      exact ih _ hstep
    | error msg =>
      rw [show relatedStep db ov acc r = acc by simp [relatedStep, hexp]]
      exact ih _ hacc

lemma export_to_foundry_eq (db : LoreDb) (now slug : String)
    (inc : Bool) (ov : Option (List (String × String))) :
    export_to_foundry db now slug inc ov =
      (export_entry db slug ov).map fun result =>
        let start := ([result],
          dictInsert [] slug (slug_to_foundry_id slug))
        let p := if inc then
            (get_references db slug).foldl (relatedStep db ov) start
          else start
        { entries := p.1
          manifest := { exported_at := now
                        foundry_version := "12.343"
                        system := "lancer"
                        system_version := "2.11.1"
                        id_map := p.2 } } := by
  cases hexp : export_entry db slug ov with
  | ok d =>
    simp [export_to_foundry, hexp, bind, Except.bind, Except.map, pure,
      Except.pure]
  | error msg =>
    simp [export_to_foundry, hexp, bind, Except.bind, Except.map]

end Foundry

namespace Store

lemma digitChar_inj :
    ∀ d₁ < 10, ∀ d₂ < 10,
      Char.ofNat (48 + d₁) = Char.ofNat (48 + d₂) → d₁ = d₂ := by
  decide

lemma map_digitChar_inj :
    ∀ (l₁ l₂ : List Nat), (∀ d ∈ l₁, d < 10) → (∀ d ∈ l₂, d < 10) →
      l₁.map (fun d => Char.ofNat (48 + d)) =
        l₂.map (fun d => Char.ofNat (48 + d)) → l₁ = l₂ := by
  intro l₁
  induction l₁ with
  | nil => intro l₂ _ _ h; cases l₂ <;> simp_all
  | cons a l ih =>
    intro l₂ h₁ h₂ h
    cases l₂ with
    | nil => simp_all
    | cons b l' =>
      simp only [List.map_cons, List.cons.injEq] at h
      have hab : a = b :=
        digitChar_inj a (h₁ a (by simp)) b (h₂ b (by simp)) h.1
      have := ih l' (fun d hd => h₁ d (by simp [hd]))
        (fun d hd => h₂ d (by simp [hd])) h.2
      simp [hab, this]

lemma decDigits_eq_digits :
    ∀ (fuel n : Nat), n ≤ fuel → decDigits fuel n = Nat.digits 10 n := by
  intro fuel
  induction fuel with
  | zero =>
    intro n hn
    interval_cases n
    simp [decDigits]
  | succ f ih =>
    intro n hn
    match n with
    | 0 => simp [decDigits]
    | m + 1 =>
      rw [decDigits]
      have hdiv : (m + 1) / 10 ≤ f := by
        have := Nat.div_lt_self (Nat.succ_pos m) (by norm_num : 1 < 10)
        omega
      rw [ih ((m + 1) / 10) hdiv]
      rw [Nat.digits_def' (by norm_num : (1 : ℕ) < 10) (Nat.succ_pos m)]

lemma natToDec_eq (n : Nat) :
    natToDec n =
      ⟨((Nat.digits 10 n).map (fun d => Char.ofNat (48 + d))).reverse⟩ := by
  unfold natToDec
  rw [decDigits_eq_digits n n (Nat.le_refl n)]

lemma natToDec_injective : Function.Injective natToDec := by
  intro m n h
  rw [natToDec_eq, natToDec_eq] at h
  have hd : ((Nat.digits 10 m).map (fun d => Char.ofNat (48 + d))).reverse =
      ((Nat.digits 10 n).map (fun d => Char.ofNat (48 + d))).reverse :=
    congrArg String.data h
  have hmaps := List.reverse_injective hd
  have hdig := map_digitChar_inj _ _
    (fun d hdm => Nat.digits_lt_base (by norm_num) hdm)
    (fun d hdn => Nat.digits_lt_base (by norm_num) hdn) hmaps
  exact Nat.digits.injective 10 hdig

lemma natToDec_data_ne_nil {n : Nat} (h : n ≠ 0) :
    (natToDec n).data ≠ [] := by
  have hne : Nat.digits 10 n ≠ [] := Nat.digits_ne_nil_iff_ne_zero.mpr h
  rw [natToDec_eq]
  simpa using hne

lemma slug_candidate_injective (base : String) :
    Function.Injective (slug_candidate base) := by
  intro m n h
  match m, n with
  | 0, 0 => rfl
  | 0, k + 1 =>
    exfalso
    have hdata := congrArg String.data h
    have hlen := congrArg List.length hdata
    simp only [slug_candidate, String.data_append, List.length_append]
      at hlen
    have hpos : (natToDec (k + 2)).data ≠ [] :=
      natToDec_data_ne_nil (by omega)
    have := List.length_pos.mpr hpos
    omega
  | k + 1, 0 =>
    exfalso
    have hdata := congrArg String.data h
    have hlen := congrArg List.length hdata
    simp only [slug_candidate, String.data_append, List.length_append]
      at hlen
    have hpos : (natToDec (k + 2)).data ≠ [] :=
      natToDec_data_ne_nil (by omega)
    have := List.length_pos.mpr hpos
    omega
  | j + 1, k + 1 =>
    simp only [slug_candidate] at h
    have hdata := congrArg String.data h
    simp only [String.data_append, List.append_assoc] at hdata
    have h1 := List.append_cancel_left hdata
    have h2 := List.append_cancel_left h1
    have : natToDec (j + 2) = natToDec (k + 2) := String.ext h2
    have := natToDec_injective this
    omega

lemma generate_slug_find_ne_none (taken : List String) (base : String) :
    (List.range (taken.length + 1)).find?
      (fun n => !(taken.contains (slug_candidate base n))) ≠ none := by
  intro hfind
  have hall : ∀ n ∈ List.range (taken.length + 1),
      slug_candidate base n ∈ taken := by
    intro n hn
    have := List.find?_eq_none.mp hfind n hn
    simpa using this
  set cands := (List.range (taken.length + 1)).map (slug_candidate base)
    with hcands
  have hnodup : cands.Nodup :=
    (List.nodup_range _).map (slug_candidate_injective base)
  have hsub : ∀ s ∈ cands, s ∈ taken := by
    intro s hs
    rcases List.mem_map.mp hs with ⟨n, hn, rfl⟩
    exact hall n hn
  have hcard1 : cands.toFinset.card = cands.length := by
    rw [List.card_toFinset, hnodup.dedup]
  have hsubf : cands.toFinset ⊆ taken.toFinset := by
    intro s hs
    exact List.mem_toFinset.mpr (hsub s (List.mem_toFinset.mp hs))
  have := Finset.card_le_card hsubf
  have h2 := List.toFinset_card_le taken
  have hlen : cands.length = taken.length + 1 := by
    simp [hcands]
  omega

lemma generate_slug_spec (taken : List String) (name : String) :
    ∃ n, generate_slug taken name = slug_candidate (slugify name) n ∧
      slug_candidate (slugify name) n ∉ taken ∧
      ∀ m < n, slug_candidate (slugify name) m ∈ taken := by
  unfold generate_slug
  set base := slugify name with hbase
  cases hfind : (List.range (taken.length + 1)).find?
      (fun n => !(taken.contains (slug_candidate base n))) with
  | none => exact absurd hfind (generate_slug_find_ne_none taken base)
  | some n =>
    simp only [hfind]
    refine ⟨n, rfl, by simpa using List.find?_some hfind, ?_⟩
    intro m hm
    rcases List.find?_eq_some.mp hfind with ⟨-, as, bs, hsplit, hall⟩
    have hlen_as : as.length < (List.range (taken.length + 1)).length := by
      rw [hsplit]
      simp
    have h2 := List.getElem_of_eq hsplit hlen_as
    rw [List.getElem_append_right (Nat.le_refl _)] at h2
    simp only [List.getElem_range, Nat.sub_self, List.getElem_cons_zero]
      at h2
    have hn_eq : n = as.length := h2.symm
    have hm_lt : m < (List.range (taken.length + 1)).length := by
      simp only [List.length_range]
      have : n < taken.length + 1 := by
        have := List.mem_range.mp (List.mem_of_find?_eq_some hfind)
        exact this
      omega
    have hm_as : m ∈ as := by
      have hmas : m < as.length := by omega
      have h3 := List.getElem_of_eq hsplit hm_lt
      rw [List.getElem_append_left hmas] at h3
      simp only [List.getElem_range] at h3
      exact h3 ▸ List.getElem_mem _
    have := hall m hm_as
    simpa using this

lemma generate_slug_not_mem (taken : List String) (name : String) :
    generate_slug taken name ∉ taken := by
  unfold generate_slug
  set base := slugify name with hbase
  cases hfind : (List.range (taken.length + 1)).find?
      (fun n => !(taken.contains (slug_candidate base n))) with
  | none =>
    simp only [hfind]
    exfalso
    -- `find? = none` means every candidate occurs in `taken`; the
    -- `taken.length + 1` candidates are pairwise distinct, which is
    -- impossible in a list of `taken.length` strings.
    have hall : ∀ n ∈ List.range (taken.length + 1),
        slug_candidate base n ∈ taken := by
      intro n hn
      have := List.find?_eq_none.mp hfind n hn
      simpa using this
    set cands := (List.range (taken.length + 1)).map (slug_candidate base)
      with hcands
    have hnodup : cands.Nodup :=
      (List.nodup_range _).map (slug_candidate_injective base)
    have hsub : ∀ s ∈ cands, s ∈ taken := by
      intro s hs
      rcases List.mem_map.mp hs with ⟨n, hn, rfl⟩
      exact hall n hn
    have hcard1 : cands.toFinset.card = cands.length := by
      rw [List.card_toFinset, hnodup.dedup]
    have hsubf : cands.toFinset ⊆ taken.toFinset := by
      intro s hs
      exact List.mem_toFinset.mpr (hsub s (List.mem_toFinset.mp hs))
    have := Finset.card_le_card hsubf
    have h2 := List.toFinset_card_le taken
    have hlen : cands.length = taken.length + 1 := by
      simp [hcands]
    omega
  | some n =>
    simp only [hfind]
    have hp := List.find?_some hfind
    simpa using hp

end Store

namespace Foundry

lemma except_toOption_eq_some {ε α : Type} {x : Except ε α} {a : α} :
    x.toOption = some a ↔ x = .ok a := by
  cases x <;> simp [Except.toOption]

lemma export_ok_idmap_values {db : LoreDb} {now slug : String}
    {inc : Bool} {ov : Option (List (String × String))}
    {r : ExportResult}
    (h : export_to_foundry db now slug inc ov = .ok r) :
    ∀ p ∈ r.manifest.id_map, p.2 = slug_to_foundry_id p.1 := by
  rw [export_to_foundry_eq] at h
  cases hexp : export_entry db slug ov with
  | error m => rw [hexp] at h; simp [Except.map] at h
  | ok d =>
    rw [hexp] at h
    simp only [Except.map, Except.ok.injEq] at h
    subst h
    have hstart : ∀ p ∈ dictInsert ([] : List (String × String)) slug
        (slug_to_foundry_id slug), p.2 = slug_to_foundry_id p.1 := by
      have : ∀ p ∈ ([] : List (String × String)),
          p.2 = slug_to_foundry_id p.1 := by simp
      exact dictInsert_values this rfl
    cases inc with
    | false => simpa using hstart
    | true =>
      exact foldl_relatedStep_idmap_values db ov _ _ hstart

lemma export_ok_spec {db : LoreDb} {now slug : String}
    {ov : Option (List (String × String))} {r : ExportResult}
    (h : export_to_foundry db now slug true ov = .ok r) :
    (∃ d, export_entry db slug ov = .ok d) ∧
    (∀ s, s ∈ r.entries.map (·.slug) ↔
      s = slug ∨ ∃ ref ∈ get_references db slug,
        ref.target_slug = s ∧ (export_entry db ref.target_slug ov).isOk) ∧
    (∀ s, (∃ i, (s, i) ∈ r.manifest.id_map) ↔
      s = slug ∨ ∃ ref ∈ get_references db slug,
        ref.target_slug = s ∧ (export_entry db ref.target_slug ov).isOk) := by
  rw [export_to_foundry_eq] at h
  cases hexp : export_entry db slug ov with
  | error m => rw [hexp] at h; simp [Except.map] at h
  | ok d =>
    rw [hexp] at h
    simp only [Except.map, Except.ok.injEq, if_pos] at h
    subst h
    refine ⟨⟨d, rfl⟩, ?_, ?_⟩
    · intro s
      rw [show ((get_references db slug).foldl (relatedStep db ov)
          ([d], dictInsert [] slug (slug_to_foundry_id slug))).1 =
          [d] ++ (get_references db slug).filterMap
            (fun ref => (export_entry db ref.target_slug ov).toOption)
        from foldl_relatedStep_entries db ov _ _]
      simp only [List.map_append, List.mem_append, List.map_cons,
        List.map_nil, List.mem_singleton, List.mem_map,
        List.mem_filterMap]
      constructor
      · rintro (rfl | ⟨d', ⟨ref, href, hopt⟩, rfl⟩)
        · exact Or.inl (export_entry_ok_slug hexp)
        · rw [except_toOption_eq_some] at hopt
          exact Or.inr ⟨ref, href, (export_entry_ok_slug hopt).symm,
            by simp [hopt, Except.isOk, Except.toBool]⟩
      · rintro (rfl | ⟨ref, href, rfl, hok⟩)
        · exact Or.inl (export_entry_ok_slug hexp).symm
        · cases hexp2 : export_entry db ref.target_slug ov with
          | error m2 =>
            rw [hexp2] at hok
            simp [Except.isOk, Except.toBool] at hok
          | ok d2 =>
            refine Or.inr ⟨d2, ⟨ref, href, ?_⟩,
              export_entry_ok_slug hexp2⟩
            simp [hexp2, Except.toOption]
    · intro s
      rw [foldl_relatedStep_idmap_keys db ov _ _ s]
      rw [dictInsert_mem_keys]
      simp

lemma export_entry_ignores_overrides (db : LoreDb) (s : String)
    (ov : Option (List (String × String))) :
    export_entry db s ov = export_entry db s none := by
  cases hget : get_entry db s <;> simp [export_entry, hget]

lemma export_to_foundry_ignores_overrides (db : LoreDb)
    (now slug : String) (inc : Bool)
    (ov : Option (List (String × String))) :
    export_to_foundry db now slug inc ov =
      export_to_foundry db now slug inc none := by
  rw [export_to_foundry_eq, export_to_foundry_eq]
  rw [export_entry_ignores_overrides]
  have hstep : relatedStep db ov = relatedStep db none := by
    funext acc ref
    unfold relatedStep
    rw [export_entry_ignores_overrides]
  rw [hstep]

end Foundry

/-- C1: the export placeholder identity is a pure, deterministic
function of the slug alone — any two export calls (different batches,
different arguments) that map the same slug agree on its identifier,
and that identifier is the first 16 characters of the SHA-256 hex
digest of the slug. -/
theorem C1_placeholder_identity_deterministic :
    ∀ (db₁ db₂ : Foundry.LoreDb) (now₁ now₂ seed₁ seed₂ : String)
      (inc₁ inc₂ : Bool)
      (ov₁ ov₂ : Option (List (String × String)))
      (r₁ r₂ : Foundry.ExportResult) (s id₁ id₂ : String),
      Foundry.export_to_foundry db₁ now₁ seed₁ inc₁ ov₁ = .ok r₁ →
      Foundry.export_to_foundry db₂ now₂ seed₂ inc₂ ov₂ = .ok r₂ →
      (s, id₁) ∈ r₁.manifest.id_map →
      (s, id₂) ∈ r₂.manifest.id_map →
      id₁ = id₂ ∧ id₁ = ⟨(Sha256.hexdigest s).data.take 16⟩ := by
  intro db₁ db₂ now₁ now₂ seed₁ seed₂ inc₁ inc₂ ov₁ ov₂ r₁ r₂ s id₁ id₂
    h1 h2 hm1 hm2
  have v1 := Foundry.export_ok_idmap_values h1 (s, id₁) hm1
  have v2 := Foundry.export_ok_idmap_values h2 (s, id₂) hm2
  simp only at v1 v2
  exact ⟨v1.trans v2.symm, v1⟩

/-- Witness for C1 at the concrete fixture database: the slug
`kael-vasuda`, exported in two different calls, gets the identifier
`18d81a8373f9be6e` both times, which is the first 16 hex characters of
its SHA-256 digest. -/
theorem C1_placeholder_identity_deterministic_witness :
    "18d81a8373f9be6e" = "18d81a8373f9be6e" ∧
    "18d81a8373f9be6e" =
      (⟨(Sha256.hexdigest "kael-vasuda").data.take 16⟩ : String) :=
  C1_placeholder_identity_deterministic Fixtures.expDb Fixtures.expDb
    "2026-01-01T00:00:00" "2026-02-02T00:00:00" "kael-vasuda"
    "kael-vasuda" false true none none Fixtures.res1 Fixtures.res2
    "kael-vasuda" "18d81a8373f9be6e" "18d81a8373f9be6e"
    (by decide) (by decide) (by decide) (by decide)

/-- C2 (code bug): the claim says `idOverrides` replaces the computed
placeholder everywhere the slug appears, but the code accepts the
argument and never reads it.  The first conjunct shows the export
output is identical with and without overrides; the remaining
conjuncts evaluate the failing input — exporting `kael-vasuda` with an
override for `seicoe-station` still maps `seicoe-station` to its
computed placeholder in the manifest `id_map` and inside every
relationship list, never to the override identity. -/
theorem C2_id_overrides_ignored :
    (∀ (db : Foundry.LoreDb) (now slug : String) (inc : Bool)
      (ov : List (String × String)),
      Foundry.export_to_foundry db now slug inc (some ov) =
        Foundry.export_to_foundry db now slug inc none) ∧
    Foundry.export_to_foundry Fixtures.expDb "t" "kael-vasuda" true
        (some [("seicoe-station", "ZZZZZZZZZZZZZZZZ")]) =
      .ok Fixtures.res3 ∧
    ("seicoe-station",
      (⟨(Sha256.hexdigest "seicoe-station").data.take 16⟩ : String)) ∈
        Fixtures.res3.manifest.id_map ∧
    (∀ p ∈ Fixtures.res3.manifest.id_map,
      p.1 = "seicoe-station" → p.2 ≠ "ZZZZZZZZZZZZZZZZ") ∧
    (∀ d ∈ Fixtures.res3.entries, ∀ rel ∈ d.json.relationships,
      rel.id ≠ "ZZZZZZZZZZZZZZZZ") := by
  refine ⟨?_, by decide, by decide, by decide, by decide⟩
  intro db now slug inc ov
  exact Foundry.export_to_foundry_ignores_overrides db now slug inc
    (some ov)

/-- C3: `include_related` export walks exactly one hop of outbound
references from the seed; it never fails because of a missing target
(the seed exporting successfully is enough for the whole call to
succeed), every reference whose own export succeeds is still exported,
every exported slug is the seed or a one-hop reference target, the
manifest `id_map` holds exactly the slugs of the exported documents,
and no slug without a database entry is ever exported. -/
theorem C3_include_related_one_hop :
    ∀ (db : Foundry.LoreDb) (now slug : String)
      (ov : Option (List (String × String))),
      ((Foundry.export_entry db slug ov).isOk →
        ∃ r, Foundry.export_to_foundry db now slug true ov = .ok r) ∧
      (∀ r, Foundry.export_to_foundry db now slug true ov = .ok r →
        (∀ s, (∃ i, (s, i) ∈ r.manifest.id_map) ↔
          s ∈ r.entries.map (·.slug)) ∧
        (∀ ref ∈ Foundry.get_references db slug,
          (Foundry.export_entry db ref.target_slug ov).isOk →
          ref.target_slug ∈ r.entries.map (·.slug)) ∧
        (∀ s, s ∈ r.entries.map (·.slug) →
          s = slug ∨ ∃ ref ∈ Foundry.get_references db slug,
            ref.target_slug = s) ∧
        (∀ s, Foundry.get_entry db s = none →
          s ∉ r.entries.map (·.slug))) := by
  intro db now slug ov
  constructor
  · intro hok
    rw [Foundry.export_to_foundry_eq]
    cases hexp : Foundry.export_entry db slug ov with
    | error m =>
      rw [hexp] at hok
      simp [Except.isOk, Except.toBool] at hok
    | ok d => exact ⟨_, rfl⟩
  · intro r hr
    obtain ⟨⟨d, hd⟩, hslugs, hkeys⟩ := Foundry.export_ok_spec hr
    refine ⟨?_, ?_, ?_, ?_⟩
    · intro s
      rw [hkeys s]
      exact (hslugs s).symm
    · intro ref href hok
      exact (hslugs _).mpr (Or.inr ⟨ref, href, rfl, hok⟩)
    · intro s hs
      rcases (hslugs s).mp hs with rfl | ⟨ref, href, htar, -⟩
      · exact Or.inl rfl
      · exact Or.inr ⟨ref, href, htar⟩
    · intro s hnone hs
      rcases (hslugs s).mp hs with rfl | ⟨ref, href, rfl, hok⟩
      · obtain ⟨e, he, -⟩ := Foundry.export_entry_ok_entry hd
        rw [hnone] at he
        cases he
      · cases hexp2 : Foundry.export_entry db ref.target_slug ov with
        | error m =>
          rw [hexp2] at hok
          simp [Except.isOk, Except.toBool] at hok
        | ok d2 =>
          obtain ⟨e, he, -⟩ := Foundry.export_entry_ok_entry hexp2
          rw [hnone] at he
          cases he

/-- Witness for C3 at the fixture database: the seed `kael-vasuda`
exports successfully with `include_related` even though it references
the missing `ghost-station`, and `ghost-station` is absent from the
exported documents. -/
theorem C3_include_related_one_hop_witness :
    (∃ r, Foundry.export_to_foundry Fixtures.expDb "2026-02-02T00:00:00"
      "kael-vasuda" true none = .ok r) ∧
    "ghost-station" ∉ Fixtures.res2.entries.map (·.slug) :=
  ⟨(C3_include_related_one_hop Fixtures.expDb
      "2026-02-02T00:00:00" "kael-vasuda" none).1 (by decide),
   ((C3_include_related_one_hop Fixtures.expDb
      "2026-02-02T00:00:00" "kael-vasuda" none).2 Fixtures.res2
      (by decide)).2.2.2 "ghost-station" (by decide)⟩

/-- C7: export dispatch is per-type — an entry whose type has a
formatter is mapped into the target document (its type, name, MEJ page
type and resolved relationship list as built by the formatter), an
entry whose type has no formatter makes `export_entry` raise the typed
"Unsupported type" error instead of emitting a best-guess document,
and inside a batch with `include_related` such a failure only drops
that one document while every other successfully exporting reference
is still included. -/
theorem C7_dispatch_unsupported_type :
    ∀ (db : Foundry.LoreDb) (slug : String)
      (ov : Option (List (String × String))) (e : Foundry.Entry),
      Foundry.get_entry db slug = some e →
      (e.type ∉ Foundry.formatter_types →
        Foundry.export_entry db slug ov =
          .error ("Unsupported type: " ++ e.type)) ∧
      (e.type ∈ Foundry.formatter_types →
        ∃ d, Foundry.export_entry db slug ov = .ok d ∧
          d.type = e.type ∧ d.json.name = e.name ∧
          d.foundry_type =
            (Foundry.MEJ_PAGE_TYPES.lookup e.type).getD "" ∧
          d.json.relationships =
            (Foundry.get_references db slug).filterMap fun ref =>
              (Foundry.get_entry db ref.target_slug).map fun t =>
                Foundry.build_relationship ref.target_slug t.name
                  ref.target_type ref.relationship) ∧
      (∀ now r, Foundry.export_to_foundry db now slug true ov = .ok r →
        (∀ ref ∈ Foundry.get_references db slug, ∀ te,
          Foundry.get_entry db ref.target_slug = some te →
          te.type ∉ Foundry.formatter_types →
          ref.target_slug ∉ r.entries.map (·.slug)) ∧
        (∀ ref ∈ Foundry.get_references db slug,
          (Foundry.export_entry db ref.target_slug ov).isOk →
          ref.target_slug ∈ r.entries.map (·.slug))) := by
  intro db slug ov e hget
  refine ⟨?_, ?_, ?_⟩
  · intro ht
    exact Foundry.export_entry_unsupported hget ht
  · intro ht
    exact ⟨_, Foundry.export_entry_supported hget ht, rfl, rfl, rfl, rfl⟩
  · intro now r hr
    obtain ⟨⟨d, hd⟩, hslugs, -⟩ := Foundry.export_ok_spec hr
    constructor
    · intro ref href te hte htbad hmem
      rcases (hslugs _).mp hmem with heq | ⟨ref', href', htar, hok⟩
      · obtain ⟨e', he', hsup⟩ := Foundry.export_entry_ok_entry hd
        rw [heq, hget] at hte
        cases hte
        rw [hget] at he'
        cases he'
        exact htbad hsup
      · cases hexp2 : Foundry.export_entry db ref'.target_slug ov with
        | error m =>
          rw [hexp2] at hok
          simp [Except.isOk, Except.toBool] at hok
        | ok d2 =>
          obtain ⟨e', he', hsup⟩ := Foundry.export_entry_ok_entry hexp2
          rw [htar] at he'
          rw [hte] at he'
          cases he'
          exact htbad hsup
    · intro ref href hok
      exact (hslugs _).mpr (Or.inr ⟨ref, href, rfl, hok⟩)

/-- Witness for C7 at the fixture database: the `artifact` entry
`old-relic` is rejected with the typed error, it is absent from the
batch export of `kael-vasuda`, and the supported reference
`seicoe-station` is still exported in the same batch. -/
theorem C7_dispatch_unsupported_type_witness :
    Foundry.export_entry Fixtures.expDb "old-relic" none =
      .error ("Unsupported type: " ++ Fixtures.relic.type) ∧
    "old-relic" ∉ Fixtures.res2.entries.map (·.slug) ∧
    "seicoe-station" ∈ Fixtures.res2.entries.map (·.slug) :=
  ⟨(C7_dispatch_unsupported_type Fixtures.expDb "old-relic" none
      Fixtures.relic (by decide)).1 (by decide),
   ((C7_dispatch_unsupported_type Fixtures.expDb "kael-vasuda" none
      Fixtures.kael (by decide)).2.2 "2026-02-02T00:00:00" Fixtures.res2
      (by decide)).1 Fixtures.kaelRefRelic (by decide) Fixtures.relic
      (by decide) (by decide),
   ((C7_dispatch_unsupported_type Fixtures.expDb "kael-vasuda" none
      Fixtures.kael (by decide)).2.2 "2026-02-02T00:00:00" Fixtures.res2
      (by decide)).2 Fixtures.kaelRefSeicoe (by decide) (by decide)⟩

/-- C4: a successful create yields an entry whose slug is distinct
from every existing slug (the lowercase hyphen-joined base with a
deterministically increasing numeric suffix: the chosen candidate is
the first free one, every earlier candidate being taken), no existing
entry is overwritten (the old rows are preserved verbatim), and slug
uniqueness is an invariant of the store. -/
theorem C4_slug_uniqueness_no_overwrite :
    ∀ (db : Foundry.LoreDb)
      (type name category status summary content : String)
      (metadata : List (String × String))
      (references : List Store.RefInput) (parent_slug : String)
      (res : Store.CreateResult) (db' : Foundry.LoreDb),
      Store.create_entry db type name category status summary content
        metadata references parent_slug = (.ok res, db') →
      res.entry.slug ∉ db.entries.map (·.slug) ∧
      db'.entries = db.entries ++ [res.entry] ∧
      (∃ n, res.entry.slug =
          Store.slug_candidate (Store.slugify name) n ∧
        ∀ m < n, Store.slug_candidate (Store.slugify name) m ∈
          db.entries.map (·.slug)) ∧
      ((db.entries.map (·.slug)).Nodup →
        (db'.entries.map (·.slug)).Nodup) := by
  intro db type name category status summary content metadata references
    parent_slug res db' h
  unfold Store.create_entry at h
  split at h
  · simp at h
  · next schema heq =>
    by_cases hcat : category ∉ schema.categories
    · rw [if_pos hcat] at h
      simp at h
    · rw [if_neg hcat] at h
      by_cases hstat : status ∉ schema.statuses
      · rw [if_pos hstat] at h
        simp at h
      · rw [if_neg hstat] at h
        simp only [Prod.mk.injEq, Except.ok.injEq] at h
        obtain ⟨hres, hdb⟩ := h
        subst hres
        subst hdb
        have hfresh := Store.generate_slug_not_mem
          (db.entries.map (·.slug)) name
        obtain ⟨n, hn, -, hmin⟩ := Store.generate_slug_spec
          (db.entries.map (·.slug)) name
        refine ⟨hfresh, rfl, ⟨n, hn, hmin⟩, ?_⟩
        intro hnd
        simp only [List.map_append, List.map_cons, List.map_nil]
        rw [List.nodup_append]
        refine ⟨hnd, List.nodup_singleton _, ?_⟩
        intro x hx
        simp only [List.mem_singleton]
        intro hx1
        subst hx1
        exact hfresh hx

/-- Witness for C4: creating "Kael Vasuda" into a store that already
holds `kael-vasuda` yields the suffixed slug, preserves the old rows,
and keeps the slug list duplicate-free. -/
theorem C4_slug_uniqueness_no_overwrite_witness :
    Fixtures.c4res2.entry.slug ∉ Fixtures.c4db1.entries.map (·.slug) ∧
    Fixtures.c4db2.entries =
      Fixtures.c4db1.entries ++ [Fixtures.c4res2.entry] ∧
    (∃ n, Fixtures.c4res2.entry.slug =
        Store.slug_candidate (Store.slugify "Kael Vasuda") n ∧
      ∀ m < n, Store.slug_candidate (Store.slugify "Kael Vasuda") m ∈
        Fixtures.c4db1.entries.map (·.slug)) ∧
    ((Fixtures.c4db1.entries.map (·.slug)).Nodup →
      (Fixtures.c4db2.entries.map (·.slug)).Nodup) :=
  C4_slug_uniqueness_no_overwrite Fixtures.c4db1 "npc" "Kael Vasuda"
    "criminal" "alive" "A different fixer." "Body 2." [] [] ""
    Fixtures.c4res2 Fixtures.c4db2 (by decide)

/-- C5: entry creation succeeds exactly when the type is a known
schema and the category and status are members of that type's enums;
a rejected create returns the store unchanged, persisting nothing. -/
theorem C5_schema_enforcement :
    ∀ (db : Foundry.LoreDb)
      (type name category status summary content : String)
      (metadata : List (String × String))
      (references : List Store.RefInput) (parent_slug : String),
      ((∃ res db', Store.create_entry db type name category status
          summary content metadata references parent_slug =
            (.ok res, db')) ↔
        (∃ schema, Store.ENTRY_SCHEMAS.lookup type = some schema ∧
          category ∈ schema.categories ∧ status ∈ schema.statuses)) ∧
      (∀ msg db', Store.create_entry db type name category status
          summary content metadata references parent_slug =
            (.error msg, db') →
        db' = db) := by
  intro db type name category status summary content metadata references
    parent_slug
  constructor
  · constructor
    · rintro ⟨res, db', h⟩
      unfold Store.create_entry at h
      split at h
      · simp at h
      · next schema heq =>
        by_cases hcat : category ∉ schema.categories
        · rw [if_pos hcat] at h
          simp at h
        · by_cases hstat : status ∉ schema.statuses
          · rw [if_neg hcat, if_pos hstat] at h
            simp at h
          · exact ⟨schema, heq, not_not.mp hcat, not_not.mp hstat⟩
    · rintro ⟨schema, hschema, hcat, hstat⟩
      simp only [Store.create_entry, hschema]
      rw [if_neg (not_not_intro hcat)]
      rw [if_neg (not_not_intro hstat)]
      exact ⟨_, _, rfl⟩
  · intro msg db' h
    unfold Store.create_entry at h
    split at h
    · simp only [Prod.mk.injEq] at h
      exact h.2.symm
    · next schema heq =>
      by_cases hcat : category ∉ schema.categories
      · rw [if_pos hcat] at h
        simp only [Prod.mk.injEq] at h
        exact h.2.symm
      · rw [if_neg hcat] at h
        by_cases hstat : status ∉ schema.statuses
        · rw [if_pos hstat] at h
          simp only [Prod.mk.injEq] at h
          exact h.2.symm
        · rw [if_neg hstat] at h
          simp at h

/-- Witness for C5: a valid npc create succeeds, and the create with
the out-of-enum category `pirate` is rejected leaving the store
unchanged. -/
theorem C5_schema_enforcement_witness :
    (∃ res db', Store.create_entry Fixtures.c4db0 "npc" "Kael Vasuda"
      "criminal" "alive" "A fixer." "Body." [] [] "" =
        (.ok res, db')) ∧
    Fixtures.c5bad.2 = Fixtures.c4db1 :=
  ⟨(C5_schema_enforcement Fixtures.c4db0 "npc" "Kael Vasuda" "criminal"
      "alive" "A fixer." "Body." [] [] "").1.mpr
    ⟨Fixtures.npcSchema, by decide, by decide, by decide⟩,
   (C5_schema_enforcement Fixtures.c4db1 "npc" "Other Person" "pirate"
      "alive" "s" "c" [] [] "").2 "Invalid category for npc: pirate"
    Fixtures.c5bad.2 (by decide)⟩

namespace Related

open Foundry (Entry)

lemma listLe_total : ∀ x y, listLe x y = true ∨ listLe y x = true := by
  intro x
  induction x with
  | nil => intro y; exact Or.inl rfl
  | cons a as ih =>
    intro y
    cases y with
    | nil => exact Or.inr rfl
    | cons b bs =>
      by_cases hab : a.toNat < b.toNat
      · left
        simp [listLe, hab]
      · by_cases hba : b.toNat < a.toNat
        · right
          simp [listLe, hba]
        · rcases ih bs with h | h
          · left
            simp [listLe, hab, hba, h]
          · right
            simp [listLe, hab, hba, h]

lemma listLe_trans :
    ∀ x y z, listLe x y = true → listLe y z = true →
      listLe x z = true := by
  intro x
  induction x with
  | nil => intro y z _ _; rfl
  | cons a as ih =>
    intro y z hxy hyz
    cases y with
    | nil => simp [listLe] at hxy
    | cons b bs =>
      cases z with
      | nil => simp [listLe] at hyz
      | cons c cs =>
        simp only [listLe] at hxy hyz ⊢
        by_cases hab : a.toNat < b.toNat
        · by_cases hbc : b.toNat < c.toNat
          · simp [show a.toNat < c.toNat by omega]
          · simp only [if_pos hab] at hxy
            by_cases hcb : c.toNat < b.toNat
            · simp [if_pos hcb, if_neg hbc] at hyz
            · have hbc' : b.toNat = c.toNat := by omega
              simp [show a.toNat < c.toNat by omega]
        · by_cases hba : b.toNat < a.toNat
          · simp [if_neg hab, if_pos hba] at hxy
          · have hab' : a.toNat = b.toNat := by omega
            simp only [if_neg hab, if_neg hba] at hxy
            by_cases hbc : b.toNat < c.toNat
            · simp [show a.toNat < c.toNat by omega]
            · by_cases hcb : c.toNat < b.toNat
              · simp [if_neg hbc, if_pos hcb] at hyz
              · simp only [if_neg hbc, if_neg hcb] at hyz
                simp [show ¬ a.toNat < c.toNat by omega,
                  show ¬ c.toNat < a.toNat by omega, ih bs cs hxy hyz]

lemma relLe_total : ∀ a b, relLe a b = true ∨ relLe b a = true := by
  intro a b
  simp only [relLe, Bool.or_eq_true, decide_eq_true_eq,
    Bool.and_eq_true]
  by_cases hlt : b.2 < a.2
  · left
    simp [hlt]
  · by_cases hgt : a.2 < b.2
    · right
      simp [hgt]
    · have heq : a.2 = b.2 := by omega
      rcases listLe_total a.1.name.data b.1.name.data with h | h
      · left
        simp [heq, h]
      · right
        simp [heq, h]

lemma relLe_trans :
    ∀ a b c, relLe a b = true → relLe b c = true → relLe a c = true := by
  intro a b c hab hbc
  simp only [relLe, Bool.or_eq_true, decide_eq_true_eq,
    Bool.and_eq_true] at hab hbc ⊢
  rcases hab with h1 | ⟨h1, h1'⟩ <;> rcases hbc with h2 | ⟨h2, h2'⟩
  · left; omega
  · left; omega
  · left; omega
  · right
    refine ⟨by omega, ?_⟩
    exact listLe_trans _ _ _ h1' h2'

lemma mem_insertSorted {x a : Entry × Nat} :
    ∀ {l}, a ∈ insertSorted x l ↔ a = x ∨ a ∈ l := by
  intro l
  induction l with
  | nil => simp [insertSorted]
  | cons y ys ih =>
    simp only [insertSorted]
    split
    · simp [or_comm, or_assoc, or_left_comm]
    · simp only [List.mem_cons, ih]
      tauto

lemma mem_sortRel {a : Entry × Nat} :
    ∀ {l}, a ∈ sortRel l ↔ a ∈ l := by
  intro l
  induction l with
  | nil => simp [sortRel]
  | cons y ys ih =>
    simp only [sortRel, mem_insertSorted, ih, List.mem_cons]

lemma pairwise_insertSorted {x : Entry × Nat} :
    ∀ {l}, l.Pairwise (fun a b => relLe a b = true) →
      (insertSorted x l).Pairwise (fun a b => relLe a b = true) := by
  intro l
  induction l with
  | nil => intro _; simp [insertSorted]
  | cons y ys ih =>
    intro hp
    rcases List.pairwise_cons.mp hp with ⟨hy, hys⟩
    simp only [insertSorted]
    split
    · next hxy =>
      refine List.pairwise_cons.mpr ⟨?_, hp⟩
      intro b hb
      rcases List.mem_cons.mp hb with rfl | hb
      · exact hxy
      · exact relLe_trans _ _ _ hxy (hy b hb)
    · next hxy =>
      have hyx : relLe y x = true := by
        rcases relLe_total x y with h | h
        · exact absurd h hxy
        · exact h
      refine List.pairwise_cons.mpr ⟨?_, ih hys⟩
      intro b hb
      rcases mem_insertSorted.mp hb with rfl | hb
      · exact hyx
      · exact hy b hb

lemma pairwise_sortRel :
    ∀ l, (sortRel l).Pairwise (fun a b => relLe a b = true) := by
  intro l
  induction l with
  | nil => simp [sortRel]
  | cons y ys ih =>
    simp only [sortRel]
    exact pairwise_insertSorted ih

end Related

namespace Related

open Foundry (Entry LoreDb get_entry)

lemma mem_find_related {db : LoreDb} {slug : String} {limit : Nat}
    {src : Entry} {p : Entry × Nat}
    (hget : get_entry db slug = some src)
    (hp : p ∈ find_related db slug limit) :
    p.1 ∈ db.entries ∧ p.1.slug ≠ slug ∧ p.2 = tierScore db src p.1 := by
  simp only [find_related, hget] at hp
  have hp2 := mem_sortRel.mp (List.mem_of_mem_take hp)
  rcases List.mem_map.mp hp2 with ⟨e, he, rfl⟩
  rcases List.mem_filter.mp he with ⟨hmem, hcond⟩
  simp only [decide_eq_true_eq, Bool.and_eq_true] at hcond
  exact ⟨hmem, hcond.1, rfl⟩

lemma find_related_pairwise (db : LoreDb) (slug : String) (limit : Nat)
    {src : Entry} (hget : get_entry db slug = some src) :
    (find_related db slug limit).Pairwise
      (fun a b => relLe a b = true) := by
  simp only [find_related, hget]
  exact (pairwise_sortRel _).sublist (List.take_sublist _ _)

end Related

/-- C6: findRelated is deterministic on identical store state — each
returned entry's score is the sum of the fixed weights of the tiers it
satisfies (direct reference in either direction, shared parent slug,
shared outbound reference target, text similarity), the list is sorted
descending by summed score with ties broken alphabetically by name,
direct-reference neighbors always outrank entries whose only relation
is text similarity, and earlier entries never score below later
ones. -/
theorem C6_find_related_ranking :
    ∀ (db : Foundry.LoreDb) (slug : String) (limit : Nat)
      (src : Foundry.Entry),
      Foundry.get_entry db slug = some src →
      (∀ p ∈ Related.find_related db slug limit,
        p.2 =
          (if Related.directlyLinked db src.slug p.1.slug then
            Related.W_DIRECT else 0) +
          (if Related.sharedParent src p.1 then Related.W_PARENT else 0) +
          (if Related.sharedTarget db src.slug p.1.slug then
            Related.W_SHARED else 0) +
          (if Related.textSimilar src p.1 then Related.W_TEXT else 0)) ∧
      (Related.find_related db slug limit).Pairwise
        (fun a b => b.2 < a.2 ∨
          (a.2 = b.2 ∧
            Related.listLe a.1.name.data b.1.name.data = true)) ∧
      (∀ p q, p ∈ Related.find_related db slug limit →
        q ∈ Related.find_related db slug limit →
        Related.directlyLinked db src.slug p.1.slug = true →
        Related.directlyLinked db src.slug q.1.slug = false →
        Related.sharedParent src q.1 = false →
        Related.sharedTarget db src.slug q.1.slug = false →
        q.2 < p.2) ∧
      (∀ i j (hi : i < (Related.find_related db slug limit).length)
        (hj : j < (Related.find_related db slug limit).length),
        i < j →
        ((Related.find_related db slug limit).get ⟨j, hj⟩).2 ≤
          ((Related.find_related db slug limit).get ⟨i, hi⟩).2) := by
  intro db slug limit src hget
  have hscore : ∀ p ∈ Related.find_related db slug limit,
      p.2 = Related.tierScore db src p.1 := fun p hp =>
    (Related.mem_find_related hget hp).2.2
  have hpw := Related.find_related_pairwise db slug limit hget
  have hpw' : (Related.find_related db slug limit).Pairwise
      (fun a b => b.2 < a.2 ∨
        (a.2 = b.2 ∧ Related.listLe a.1.name.data b.1.name.data = true)) := by
    refine hpw.imp ?_
    intro a b h
    simpa [Related.relLe] using h
  refine ⟨fun p hp => hscore p hp, hpw', ?_, ?_⟩
  · intro p q hp hq hpd hqd hqp hqt
    have h1 := hscore p hp
    have h2 := hscore q hq
    rw [Related.tierScore] at h1 h2
    rw [hpd] at h1
    rw [hqd, hqp, hqt] at h2
    simp [Related.W_DIRECT, Related.W_PARENT, Related.W_SHARED,
      Related.W_TEXT] at h1 h2
    have hle : q.2 ≤ 1 := by
      rw [h2]
      split <;> omega
    have hge : 10 ≤ p.2 := by
      rw [h1]
      split <;> split <;> split <;> omega
    omega
  · intro i j hi hj hij
    have := (List.pairwise_iff_getElem.mp hpw') i j hi hj hij
    simp only [List.get_eq_getElem]
    rcases this with h | ⟨h, -⟩
    · omega
    · omega

/-- Witness for C6: in the fixture store, `seicoe-station` (directly
referenced by `kael-vasuda`) outranks `dock-fixer`, whose only
relation is sharing the word "fixer" with kael's summary. -/
theorem C6_find_related_ranking_witness :
    ((Fixtures.fixerEntry, 1) : Foundry.Entry × Nat).2 <
      ((Fixtures.seicoe, 11) : Foundry.Entry × Nat).2 :=
  ((C6_find_related_ranking Fixtures.c6Db "kael-vasuda" 5 Fixtures.kael
    (by decide)).2.2.1 (Fixtures.seicoe, 11) (Fixtures.fixerEntry, 1)
    (by decide) (by decide) (by decide) (by decide) (by decide)
    (by decide))

/-- C8: a classifier/extractor failure or timeout is caught by the
orchestrator and treated as "not lore-related": the turn yields a null
context package, and no exception crosses the orchestrator boundary —
`process_message` returns `.ok` for every classifier outcome. -/
theorem C8_orchestrator_fail_open :
    ∀ (build_context : Orch.Intent → Orch.ContextPackage),
      (∀ msg, Orch.process_message (.failure msg) build_context =
        .ok none) ∧
      (Orch.process_message .timeout build_context = .ok none) ∧
      (∀ outcome, ∃ v, Orch.process_message outcome build_context =
        .ok v) := by
  intro build_context
  refine ⟨fun msg => rfl, rfl, ?_⟩
  intro outcome
  cases outcome with
  | ok intent =>
    by_cases h : intent.is_lore_related = true
    · exact ⟨some (build_context intent), by
        simp [Orch.process_message, h]⟩
    · exact ⟨none, by simp [Orch.process_message, h]⟩
  | failure msg => exact ⟨none, rfl⟩
  | timeout => exact ⟨none, rfl⟩

namespace Sse

lemma foldl_step_filterMap {α : Type} (jsonParse : String → Option α) :
    ∀ (l : List (List Char)) (acc : List α),
      l.foldl
        (fun events rawEvent =>
          match eventOfBlock jsonParse rawEvent with
          | none => events
          | some ev => events ++ [ev])
        acc = acc ++ l.filterMap (eventOfBlock jsonParse) := by
  intro l
  induction l with
  | nil => intro acc; simp
  | cons b bs ih =>
    intro acc
    simp only [List.foldl_cons, List.filterMap_cons]
    cases hb : eventOfBlock jsonParse b with
    | none => rw [ih]
    | some ev =>
      rw [ih]
      simp

end Sse

/-- C10: `parseSseChunk` is total — for every input string it returns
the list of events obtained by filtering the double-newline-separated
blocks through the per-block parser, and a block with no `data:` line,
or whose payload fails to JSON-parse, contributes nothing (it is
silently dropped, for any choice of the `JSON.parse` function). -/
theorem C10_parse_sse_total_drops_bad_blocks :
    ∀ (α : Type) (jsonParse : String → Option α) (input : String),
      Sse.parseSseChunk jsonParse input =
        (Sse.splitBlocks input.data).filterMap
          (Sse.eventOfBlock jsonParse) ∧
      (∀ b ∈ Sse.splitBlocks input.data,
        (((Sse.splitOnChar '\n' b).map Sse.trimChars).filter
            (fun l => 0 < l.length)).find?
            (fun l => l.take 5 = "data:".data) = none →
        Sse.eventOfBlock jsonParse b = none) ∧
      (∀ b ∈ Sse.splitBlocks input.data, ∀ dataLine,
        (((Sse.splitOnChar '\n' b).map Sse.trimChars).filter
            (fun l => 0 < l.length)).find?
            (fun l => l.take 5 = "data:".data) = some dataLine →
        jsonParse ⟨Sse.trimChars (dataLine.drop 5)⟩ = none →
        Sse.eventOfBlock jsonParse b = none) := by
  intro α jsonParse input
  refine ⟨?_, ?_, ?_⟩
  · unfold Sse.parseSseChunk
    rw [Sse.foldl_step_filterMap]
    simp
  · intro b _ hfind
    simp only [Sse.eventOfBlock]
    rw [hfind]
  · intro b _ dataLine hfind hparse
    simp only [Sse.eventOfBlock]
    rw [hfind]
    exact hparse

/-- Witness for C10 at a concrete chunk: the block "noise" (no data
line) and the block "data: bad" (unparsable payload) are both
dropped. -/
theorem C10_parse_sse_total_drops_bad_blocks_witness :
    Sse.parseSseChunk Fixtures.c10parse Fixtures.c10input =
      (Sse.splitBlocks Fixtures.c10input.data).filterMap
        (Sse.eventOfBlock Fixtures.c10parse) ∧
    Sse.eventOfBlock Fixtures.c10parse "noise".data = none ∧
    Sse.eventOfBlock Fixtures.c10parse "data: bad".data = none :=
  ⟨(C10_parse_sse_total_drops_bad_blocks Nat Fixtures.c10parse
      Fixtures.c10input).1,
   (C10_parse_sse_total_drops_bad_blocks Nat Fixtures.c10parse
      Fixtures.c10input).2.1 "noise".data (by decide) (by decide),
   (C10_parse_sse_total_drops_bad_blocks Nat Fixtures.c10parse
      Fixtures.c10input).2.2 "data: bad".data (by decide)
      "data: bad".data (by decide) (by decide)⟩

namespace Markdown

lemma clean_nil : Clean [] := by simp [Clean]

lemma clean_of_subset {l m : List Char} (h : ∀ c ∈ m, c ∈ l)
    (hl : Clean l) : Clean m := by
  obtain ⟨h1, h2, h3, h4⟩ := hl
  exact ⟨fun hm => h1 (h _ hm), fun hm => h2 (h _ hm),
    fun hm => h3 (h _ hm), fun hm => h4 (h _ hm)⟩

lemma clean_cons {c : Char} {l : List Char} (hc1 : c ≠ '<')
    (hc2 : c ≠ '>') (hc3 : c ≠ '"') (hc4 : c ≠ '\'') (hl : Clean l) :
    Clean (c :: l) := by
  obtain ⟨h1, h2, h3, h4⟩ := hl
  refine ⟨?_, ?_, ?_, ?_⟩ <;> intro hm <;>
    rcases List.mem_cons.mp hm with heq | hm'
  · exact hc1 heq.symm
  · exact h1 hm'
  · exact hc2 heq.symm
  · exact h2 hm'
  · exact hc3 heq.symm
  · exact h3 hm'
  · exact hc4 heq.symm
  · exact h4 hm'

lemma clean_append {a b : List Char} (ha : Clean a) (hb : Clean b) :
    Clean (a ++ b) := by
  obtain ⟨a1, a2, a3, a4⟩ := ha
  obtain ⟨b1, b2, b3, b4⟩ := hb
  refine ⟨?_, ?_, ?_, ?_⟩ <;> intro hm <;>
    rcases List.mem_append.mp hm with h | h
  · exact a1 h
  · exact b1 h
  · exact a2 h
  · exact b2 h
  · exact a3 h
  · exact b3 h
  · exact a4 h
  · exact b4 h

lemma safe_nil : Safe [] := ⟨[], rfl, by simp⟩

lemma safe_clean {l : List Char} (h : Clean l) : Safe l :=
  ⟨[l], by simp, by simp [h]⟩

lemma safe_tpl {t : List Char} (h : t ∈ TEMPLATES) : Safe t :=
  ⟨[t], by simp, by simp [h]⟩

lemma safe_append {a b : List Char} (ha : Safe a) (hb : Safe b) :
    Safe (a ++ b) := by
  obtain ⟨sa, rfl, hsa⟩ := ha
  obtain ⟨sb, rfl, hsb⟩ := hb
  refine ⟨sa ++ sb, by simp, ?_⟩
  intro s hs
  rcases List.mem_append.mp hs with h | h
  · exact hsa s h
  · exact hsb s h

lemma safe_flatten {ps : List (List Char)} (h : ∀ p ∈ ps, Safe p) :
    Safe ps.flatten := by
  induction ps with
  | nil => exact safe_nil
  | cons p rest ih =>
    simp only [List.flatten_cons]
    exact safe_append (h p (by simp))
      (ih fun q hq => h q (by simp [hq]))

lemma safe_of_seg {s : List Char} (h : s ∈ TEMPLATES ∨ Clean s) :
    Safe s := by
  rcases h with h | h
  · exact safe_tpl h
  · exact safe_clean h

/-- Splitting a safe string at an occurrence of a character that no
template contains leaves two safe halves. -/
lemma safe_split_segs {c : Char} (hc : ∀ t ∈ TEMPLATES, c ∉ t) :
    ∀ (segs : List (List Char)),
      (∀ s ∈ segs, s ∈ TEMPLATES ∨ Clean s) →
      ∀ p q, segs.flatten = p ++ c :: q → Safe p ∧ Safe q := by
  intro segs
  induction segs with
  | nil =>
    intro _ p q h
    simp only [List.flatten_nil] at h
    exact absurd h.symm (by simp)
  | cons s rest ih =>
    intro hsegs p q heq
    have hrest : ∀ t ∈ rest, t ∈ TEMPLATES ∨ Clean t :=
      fun t ht => hsegs t (by simp [ht])
    have hseg : s ∈ TEMPLATES ∨ Clean s := hsegs s (by simp)
    simp only [List.flatten_cons] at heq
    rcases List.append_eq_append_iff.mp heq with
      ⟨a', hp, hb⟩ | ⟨c', hs, hd⟩
    · obtain ⟨ha', hq⟩ := ih hrest a' q hb
      exact ⟨hp ▸ safe_append (safe_of_seg hseg) ha', hq⟩
    · cases c' with
      | nil =>
        simp only [List.append_nil] at hs
        simp only [List.nil_append] at hd
        obtain ⟨-, hq⟩ := ih hrest [] q hd.symm
        exact ⟨hs ▸ safe_of_seg hseg, hq⟩
      | cons x c'' =>
        simp only [List.cons_append, List.cons.injEq] at hd
        obtain ⟨rfl, hq⟩ := hd
        rcases hseg with htpl | hclean
        · exact absurd (by rw [hs]; simp : c ∈ s) (hc s htpl)
        · have hp : Clean p := clean_of_subset
            (fun a ha => by rw [hs]; simp [ha]) hclean
          have hc'' : Clean c'' := clean_of_subset
            (fun a ha => by rw [hs]; simp [ha]) hclean
          refine ⟨safe_clean hp, ?_⟩
          rw [hq]
          exact safe_append (safe_clean hc'') (safe_flatten
            fun t ht => safe_of_seg (hrest t ht))

lemma safe_split_at_char {c : Char} {l p q : List Char}
    (hc : ∀ t ∈ TEMPLATES, c ∉ t) (hl : Safe l)
    (heq : l = p ++ c :: q) : Safe p ∧ Safe q := by
  obtain ⟨segs, rfl, hsegs⟩ := hl
  exact safe_split_segs hc segs hsegs p q heq

/-- Splitting a safe string after a prefix of characters that cannot
begin any template leaves two safe halves. -/
lemma safe_split_prefix_segs {S : Char → Prop}
    (hS : ∀ t ∈ TEMPLATES, ∀ x, t.head? = some x → ¬ S x) :
    ∀ (segs : List (List Char)),
      (∀ s ∈ segs, s ∈ TEMPLATES ∨ Clean s) →
      ∀ p q, segs.flatten = p ++ q → (∀ x ∈ p, S x) →
        Safe p ∧ Safe q := by
  intro segs
  induction segs with
  | nil =>
    intro _ p q h _
    simp only [List.flatten_nil] at h
    obtain ⟨rfl, rfl⟩ := (List.append_eq_nil).mp h.symm
    exact ⟨safe_nil, safe_nil⟩
  | cons s rest ih =>
    intro hsegs p q heq hp
    have hrest : ∀ t ∈ rest, t ∈ TEMPLATES ∨ Clean t :=
      fun t ht => hsegs t (by simp [ht])
    have hseg : s ∈ TEMPLATES ∨ Clean s := hsegs s (by simp)
    simp only [List.flatten_cons] at heq
    rcases List.append_eq_append_iff.mp heq with
      ⟨a', hpeq, hb⟩ | ⟨p', hs, hq⟩
    · have hpa : ∀ x ∈ a', S x := fun x hx => hp x (by
        rw [hpeq]; simp [hx])
      obtain ⟨ha', hq'⟩ := ih hrest a' q hb hpa
      cases s with
      | nil =>
        simp only [List.nil_append] at hpeq
        exact ⟨hpeq ▸ ha', hq'⟩
      | cons y s' =>
        have hy : S y := hp y (by rw [hpeq]; simp)
        rcases hseg with htpl | hclean
        · exact absurd hy (hS _ htpl y (by simp))
        · exact ⟨hpeq ▸ safe_append (safe_clean hclean) ha', hq'⟩
    · rcases hseg with htpl | hclean
      · cases p with
        | nil =>
          refine ⟨safe_nil, ?_⟩
          rw [hq]
          have : p' = s := by rw [hs]; rfl
          rw [this]
          exact safe_append (safe_tpl htpl) (safe_flatten
            fun t ht => safe_of_seg (hrest t ht))
        | cons y p'' =>
          have hy : S y := hp y (by simp)
          have : s.head? = some y := by rw [hs]; rfl
          exact absurd hy (hS _ htpl y this)
      · have hpclean : Clean p := clean_of_subset
          (fun a ha => by rw [hs]; simp [ha]) hclean
        have hp'clean : Clean p' := clean_of_subset
          (fun a ha => by rw [hs]; simp [ha]) hclean
        refine ⟨safe_clean hpclean, ?_⟩
        rw [hq]
        exact safe_append (safe_clean hp'clean) (safe_flatten
          fun t ht => safe_of_seg (hrest t ht))

lemma safe_split_prefix {S : Char → Prop} {l p q : List Char}
    (hS : ∀ t ∈ TEMPLATES, ∀ x, t.head? = some x → ¬ S x)
    (hl : Safe l) (heq : l = p ++ q) (hp : ∀ x ∈ p, S x) :
    Safe p ∧ Safe q := by
  obtain ⟨segs, rfl, hsegs⟩ := hl
  exact safe_split_prefix_segs hS segs hsegs p q heq hp

end Markdown

namespace Markdown

lemma not_mem_replaceChar {a c : Char} {rep l : List Char}
    (h1 : a ∉ rep) (h2 : a ∉ l ∨ a = c) : a ∉ replaceChar c rep l := by
  intro hmem
  unfold replaceChar at hmem
  rcases List.mem_flatMap.mp hmem with ⟨x, hx, hax⟩
  by_cases hxc : x = c
  · rw [if_pos hxc] at hax
    exact h1 hax
  · rw [if_neg hxc] at hax
    simp only [List.mem_singleton] at hax
    subst hax
    rcases h2 with h | h
    · exact h hx
    · exact hxc h

lemma escapeHtml_clean (l : List Char) : Clean (escapeHtml l) := by
  unfold escapeHtml
  have hlt : '<' ∉ replaceChar '<' "&lt;".data
      (replaceChar '&' "&amp;".data l) :=
    not_mem_replaceChar (by decide) (Or.inr rfl)
  have hgt2 : '>' ∉ replaceChar '>' "&gt;".data
      (replaceChar '<' "&lt;".data (replaceChar '&' "&amp;".data l)) :=
    not_mem_replaceChar (by decide) (Or.inr rfl)
  have hlt2 : '<' ∉ replaceChar '>' "&gt;".data
      (replaceChar '<' "&lt;".data (replaceChar '&' "&amp;".data l)) :=
    not_mem_replaceChar (by decide) (Or.inl hlt)
  have hq3 : '"' ∉ replaceChar '"' "&quot;".data
      (replaceChar '>' "&gt;".data (replaceChar '<' "&lt;".data
        (replaceChar '&' "&amp;".data l))) :=
    not_mem_replaceChar (by decide) (Or.inr rfl)
  have hlt3 : '<' ∉ replaceChar '"' "&quot;".data
      (replaceChar '>' "&gt;".data (replaceChar '<' "&lt;".data
        (replaceChar '&' "&amp;".data l))) :=
    not_mem_replaceChar (by decide) (Or.inl hlt2)
  have hgt3 : '>' ∉ replaceChar '"' "&quot;".data
      (replaceChar '>' "&gt;".data (replaceChar '<' "&lt;".data
        (replaceChar '&' "&amp;".data l))) :=
    not_mem_replaceChar (by decide) (Or.inl hgt2)
  refine ⟨?_, ?_, ?_, ?_⟩
  · exact not_mem_replaceChar (by decide) (Or.inl hlt3)
  · exact not_mem_replaceChar (by decide) (Or.inl hgt3)
  · exact not_mem_replaceChar (by decide) (Or.inl hq3)
  · exact not_mem_replaceChar (by decide) (Or.inr rfl)

lemma backtick_not_tpl : ∀ t ∈ TEMPLATES, '`' ∉ t := by decide

lemma star_not_tpl : ∀ t ∈ TEMPLATES, '*' ∉ t := by decide

lemma lbracket_not_tpl : ∀ t ∈ TEMPLATES, '[' ∉ t := by decide

lemma rbracket_not_tpl : ∀ t ∈ TEMPLATES, ']' ∉ t := by decide

lemma lparen_not_tpl : ∀ t ∈ TEMPLATES, '(' ∉ t := by decide

lemma rparen_not_tpl : ∀ t ∈ TEMPLATES, ')' ∉ t := by decide

lemma newline_not_tpl : ∀ t ∈ TEMPLATES, '\n' ∉ t := by decide

lemma tpl_head_not_marker :
    ∀ t ∈ TEMPLATES, ∀ x, t.head? = some x →
      ¬ (isSpaceChar x = true ∨ x = '-' ∨ x = '*') := by
  decide

/-- Peeling one non-template character off the front of a safe string
leaves a safe string. -/
lemma safe_tail {c : Char} {l : List Char}
    (hc : ∀ t ∈ TEMPLATES, c ∉ t) (h : Safe (c :: l)) : Safe l :=
  (safe_split_at_char hc h (by rfl : c :: l = [] ++ c :: l)).2

lemma dropWhile_cons_head {p : Char → Bool} {l : List Char} {x : Char}
    {xs : List Char} (h : l.dropWhile p = x :: xs) :
    p x = false ∧ l = l.takeWhile p ++ x :: xs := by
  constructor
  · induction l with
    | nil => simp [List.dropWhile] at h
    | cons y ys ih =>
      rw [List.dropWhile_cons] at h
      split at h
      · exact ih h
      · next hy =>
        cases h
        exact Bool.of_not_eq_true hy
  · conv_lhs => rw [← List.takeWhile_append_dropWhile p l]
    rw [h]
end Markdown

namespace Markdown

/-- Every segment produced by the fenced-code-block pass is safe when
the input is. -/
lemma codeBlocks_safe : ∀ l, Safe l → ∀ p ∈ codeBlocks l, Safe p := by
  intro l
  induction l using codeBlocks.induct with
  | case1 x h1 =>
    intro hl p hp
    rw [codeBlocks.eq_def] at hp
    split at hp
    · simp only [List.mem_singleton] at hp
      exact hp ▸ hl
    · next heq => rw [h1] at heq; cases heq
  | case2 x pre rest h1 h2 =>
    intro hl p hp
    rw [codeBlocks.eq_def] at hp
    split at hp
    · simp only [List.mem_singleton] at hp
      exact hp ▸ hl
    · next pre' rest' heq =>
      rw [h1] at heq
      simp only [Option.some.injEq, Prod.mk.injEq] at heq
      obtain ⟨h3, h4⟩ := heq
      subst h3; subst h4
      split at hp
      · simp only [List.mem_singleton] at hp
        exact hp ▸ hl
      · next heq2 => rw [h2] at heq2; cases heq2
  | case3 x pre rest h1 mid rest2 h2 ih =>
    intro hl p hp
    have e1 := splitFence_eq h1
    have hsplit1 := safe_split_at_char backtick_not_tpl hl e1
    have hrest : Safe rest :=
      safe_tail backtick_not_tpl (safe_tail backtick_not_tpl hsplit1.2)
    have e2 := splitFence_eq h2
    have hsplit2 := safe_split_at_char backtick_not_tpl hrest e2
    have hrest2 : Safe rest2 :=
      safe_tail backtick_not_tpl (safe_tail backtick_not_tpl hsplit2.2)
    rw [codeBlocks.eq_def] at hp
    split at hp
    · next heq => rw [h1] at heq; cases heq
    · next pre' rest' heq =>
      rw [h1] at heq
      simp only [Option.some.injEq, Prod.mk.injEq] at heq
      obtain ⟨h3, h4⟩ := heq
      subst h3; subst h4
      split at hp
      · next heq2 => rw [h2] at heq2; cases heq2
      · next mid' rest2' heq2 =>
        rw [h2] at heq2
        simp only [Option.some.injEq, Prod.mk.injEq] at heq2
        obtain ⟨h5, h6⟩ := heq2
        subst h5; subst h6
        simp only [List.mem_cons] at hp
        rcases hp with rfl | rfl | rfl | rfl | hp
        · exact hsplit1.1
        · exact safe_tpl (by simp [TEMPLATES])
        · exact hsplit2.1
        · exact safe_tpl (by simp [TEMPLATES])
        · exact ih hrest2 p hp

/-- Every segment produced by the inline-code pass is safe when the
input is. -/
lemma inlineCode_safe : ∀ l, Safe l → ∀ p ∈ inlineCode l, Safe p := by
  intro l
  induction l using inlineCode.induct with
  | case1 x h1 =>
    intro hl p hp
    rw [inlineCode.eq_def] at hp
    split at hp
    · simp only [List.mem_singleton] at hp
      exact hp ▸ hl
    · next heq => rw [h1] at heq; cases heq
  | case2 x pre rest h1 h2 =>
    intro hl p hp
    rw [inlineCode.eq_def] at hp
    split at hp
    · simp only [List.mem_singleton] at hp
      exact hp ▸ hl
    · next pre' rest' heq =>
      rw [h1] at heq
      simp only [Option.some.injEq, Prod.mk.injEq] at heq
      obtain ⟨h3, h4⟩ := heq
      subst h3; subst h4
      split at hp
      · simp only [List.mem_singleton] at hp
        exact hp ▸ hl
      · next heq2 => rw [h2] at heq2; cases heq2
  | case3 x pre rest h1 mid rest2 h2 hempty ih =>
    intro hl p hp
    have e1 := splitChar_eq h1
    have hsplit1 := safe_split_at_char backtick_not_tpl hl e1
    have e2 := splitChar_eq h2
    have hsplit2 := safe_split_at_char backtick_not_tpl hsplit1.2 e2
    have hbt : Safe ('`' :: rest2) := by
      have hone : Safe ['`'] :=
        safe_clean (clean_cons (by decide) (by decide) (by decide)
          (by decide) clean_nil)
      exact safe_append hone hsplit2.2
    rw [inlineCode.eq_def] at hp
    split at hp
    · next heq => rw [h1] at heq; cases heq
    · next pre' rest' heq =>
      rw [h1] at heq
      simp only [Option.some.injEq, Prod.mk.injEq] at heq
      obtain ⟨h3, h4⟩ := heq
      subst h3; subst h4
      split at hp
      · next heq2 => rw [h2] at heq2; cases heq2
      · next mid' rest2' heq2 =>
        rw [h2] at heq2
        simp only [Option.some.injEq, Prod.mk.injEq] at heq2
        obtain ⟨h5, h6⟩ := heq2
        subst h5; subst h6
        rw [if_pos hempty] at hp
        simp only [List.mem_cons] at hp
        rcases hp with rfl | hp
        · refine safe_append hsplit1.1 ?_
          exact safe_clean (clean_cons (by decide) (by decide) (by decide)
            (by decide) clean_nil)
        · exact ih hbt p hp
  | case4 x pre rest h1 mid rest2 h2 hempty ih =>
    intro hl p hp
    have e1 := splitChar_eq h1
    have hsplit1 := safe_split_at_char backtick_not_tpl hl e1
    have e2 := splitChar_eq h2
    have hsplit2 := safe_split_at_char backtick_not_tpl hsplit1.2 e2
    rw [inlineCode.eq_def] at hp
    split at hp
    · next heq => rw [h1] at heq; cases heq
    · next pre' rest' heq =>
      rw [h1] at heq
      simp only [Option.some.injEq, Prod.mk.injEq] at heq
      obtain ⟨h3, h4⟩ := heq
      subst h3; subst h4
      split at hp
      · next heq2 => rw [h2] at heq2; cases heq2
      · next mid' rest2' heq2 =>
        rw [h2] at heq2
        simp only [Option.some.injEq, Prod.mk.injEq] at heq2
        obtain ⟨h5, h6⟩ := heq2
        subst h5; subst h6
        rw [if_neg hempty] at hp
        simp only [List.mem_cons] at hp
        rcases hp with rfl | rfl | rfl | rfl | hp
        · exact hsplit1.1
        · exact safe_tpl (by simp [TEMPLATES])
        · exact hsplit2.1
        · exact safe_tpl (by simp [TEMPLATES])
        · exact ih hsplit2.2 p hp

end Markdown

namespace Markdown

/-- Every segment produced by the bold pass is safe when the input
is. -/
lemma boldStage_safe : ∀ l, Safe l → ∀ p ∈ boldStage l, Safe p := by
  intro l
  induction l using boldStage.induct with
  | case1 x h1 =>
    intro hl p hp
    rw [boldStage.eq_def] at hp
    split at hp
    · simp only [List.mem_singleton] at hp
      exact hp ▸ hl
    · next heq => rw [h1] at heq; cases heq
  | case2 x pre rest h1 h2 =>
    intro hl p hp
    rw [boldStage.eq_def] at hp
    split at hp
    · simp only [List.mem_singleton] at hp
      exact hp ▸ hl
    · next pre' rest' heq =>
      rw [h1] at heq
      simp only [Option.some.injEq, Prod.mk.injEq] at heq
      obtain ⟨h3, h4⟩ := heq
      subst h3; subst h4
      split at hp
      · simp only [List.mem_singleton] at hp
        exact hp ▸ hl
      · next heq2 => rw [h2] at heq2; cases heq2
  | case3 x pre rest h1 hd rest3 h2 hempty ih =>
    intro hl p hp
    have e1 := splitStar2_eq h1
    have hsplit1 := safe_split_at_char star_not_tpl hl e1
    have hstar : Safe ['*'] :=
      safe_clean (clean_cons (by decide) (by decide) (by decide)
        (by decide) clean_nil)
    rw [boldStage.eq_def] at hp
    split at hp
    · next heq => rw [h1] at heq; cases heq
    · next pre' rest' heq =>
      rw [h1] at heq
      simp only [Option.some.injEq, Prod.mk.injEq] at heq
      obtain ⟨h3, h4⟩ := heq
      subst h3; subst h4
      split at hp
      · next heq2 => rw [h2] at heq2; cases heq2
      · next hd' rest3' heq2 =>
        rw [h2] at heq2
        cases heq2
        rw [if_pos hempty] at hp
        simp only [List.mem_cons] at hp
        rcases hp with rfl | hp
        · exact safe_append hsplit1.1 hstar
        · exact ih hsplit1.2 p hp
  | case4 x pre rest h1 hd rest3 h2 hnemp hhead ih =>
    intro hl p hp
    have e1 := splitStar2_eq h1
    have hsplit1 := safe_split_at_char star_not_tpl hl e1
    have hrest : Safe rest := safe_tail star_not_tpl hsplit1.2
    have hhd : hd = '*' := not_not.mp (of_decide_eq_false
      (dropWhile_cons_head h2).1)
    have hdecomp := (dropWhile_cons_head h2).2
    rw [hhd] at hdecomp
    have hsplit2 := safe_split_at_char star_not_tpl hrest hdecomp
    have htail : Safe rest3.tail := by
      cases hr3 : rest3 with
      | nil => exact safe_nil
      | cons a as =>
        rw [hr3] at hhead
        simp only [List.head?_cons, Option.some.injEq] at hhead
        have : Safe (a :: as) := hr3 ▸ hsplit2.2
        rw [hhead] at this
        simpa using safe_tail star_not_tpl this
    rw [boldStage.eq_def] at hp
    split at hp
    · next heq => rw [h1] at heq; cases heq
    · next pre' rest' heq =>
      rw [h1] at heq
      simp only [Option.some.injEq, Prod.mk.injEq] at heq
      obtain ⟨h3, h4⟩ := heq
      subst h3; subst h4
      split at hp
      · next heq2 => rw [h2] at heq2; cases heq2
      · next hd' rest3' heq2 =>
        rw [h2] at heq2
        cases heq2
        rw [if_neg hnemp, if_pos hhead] at hp
        simp only [List.mem_cons] at hp
        rcases hp with rfl | rfl | rfl | rfl | hp
        · exact hsplit1.1
        · exact safe_tpl (by simp [TEMPLATES])
        · exact hsplit2.1
        · exact safe_tpl (by simp [TEMPLATES])
        · exact ih htail p hp
  | case5 x pre rest h1 hd rest3 h2 hnemp hnhead ih =>
    intro hl p hp
    have e1 := splitStar2_eq h1
    have hsplit1 := safe_split_at_char star_not_tpl hl e1
    have hrest : Safe rest := safe_tail star_not_tpl hsplit1.2
    have hhd : hd = '*' := not_not.mp (of_decide_eq_false
      (dropWhile_cons_head h2).1)
    have hdecomp := (dropWhile_cons_head h2).2
    rw [hhd] at hdecomp
    have hsplit2 := safe_split_at_char star_not_tpl hrest hdecomp
    have hstar : Safe ['*'] :=
      safe_clean (clean_cons (by decide) (by decide) (by decide)
        (by decide) clean_nil)
    rw [boldStage.eq_def] at hp
    split at hp
    · next heq => rw [h1] at heq; cases heq
    · next pre' rest' heq =>
      rw [h1] at heq
      simp only [Option.some.injEq, Prod.mk.injEq] at heq
      obtain ⟨h3, h4⟩ := heq
      subst h3; subst h4
      split at hp
      · next heq2 => rw [h2] at heq2; cases heq2
      · next hd' rest3' heq2 =>
        rw [h2] at heq2
        cases heq2
        rw [if_neg hnemp, if_neg hnhead] at hp
        simp only [List.mem_cons] at hp
        rcases hp with rfl | hp
        · have hstars : Safe ('*' :: '*' ::
              List.takeWhile (fun x => decide (x ≠ '*')) rest) :=
            safe_append (safe_append hstar hstar) hsplit2.1
          exact safe_append (safe_append hsplit1.1 hstars) (hhd ▸ hstar)
        · exact ih hsplit2.2 p hp

/-- Every segment produced by the emphasis pass is safe when the input
is. -/
lemma emStage_safe : ∀ l, Safe l → ∀ p ∈ emStage l, Safe p := by
  intro l
  induction l using emStage.induct with
  | case1 x h1 =>
    intro hl p hp
    rw [emStage.eq_def] at hp
    split at hp
    · simp only [List.mem_singleton] at hp
      exact hp ▸ hl
    · next heq => rw [h1] at heq; cases heq
  | case2 x pre rest h1 h2 =>
    intro hl p hp
    rw [emStage.eq_def] at hp
    split at hp
    · simp only [List.mem_singleton] at hp
      exact hp ▸ hl
    · next pre' rest' heq =>
      rw [h1] at heq
      simp only [Option.some.injEq, Prod.mk.injEq] at heq
      obtain ⟨h3, h4⟩ := heq
      subst h3; subst h4
      split at hp
      · simp only [List.mem_singleton] at hp
        exact hp ▸ hl
      · next heq2 => rw [h2] at heq2; cases heq2
  | case3 x pre rest h1 hd rest3 h2 hempty ih =>
    intro hl p hp
    have e1 := splitChar_eq h1
    have hsplit1 := safe_split_at_char star_not_tpl hl e1
    have hstar : Safe ['*'] :=
      safe_clean (clean_cons (by decide) (by decide) (by decide)
        (by decide) clean_nil)
    rw [emStage.eq_def] at hp
    split at hp
    · next heq => rw [h1] at heq; cases heq
    · next pre' rest' heq =>
      rw [h1] at heq
      simp only [Option.some.injEq, Prod.mk.injEq] at heq
      obtain ⟨h3, h4⟩ := heq
      subst h3; subst h4
      split at hp
      · next heq2 => rw [h2] at heq2; cases heq2
      · next hd' rest3' heq2 =>
        rw [h2] at heq2
        cases heq2
        rw [if_pos hempty] at hp
        simp only [List.mem_cons] at hp
        rcases hp with rfl | hp
        · exact safe_append hsplit1.1 hstar
        · exact ih hsplit1.2 p hp
  | case4 x pre rest h1 hd rest3 h2 hnemp ih =>
    intro hl p hp
    have e1 := splitChar_eq h1
    have hsplit1 := safe_split_at_char star_not_tpl hl e1
    have hhd : hd = '*' := not_not.mp (of_decide_eq_false
      (dropWhile_cons_head h2).1)
    have hdecomp := (dropWhile_cons_head h2).2
    rw [hhd] at hdecomp
    have hsplit2 := safe_split_at_char star_not_tpl hsplit1.2 hdecomp
    rw [emStage.eq_def] at hp
    split at hp
    · next heq => rw [h1] at heq; cases heq
    · next pre' rest' heq =>
      rw [h1] at heq
      simp only [Option.some.injEq, Prod.mk.injEq] at heq
      obtain ⟨h3, h4⟩ := heq
      subst h3; subst h4
      split at hp
      · next heq2 => rw [h2] at heq2; cases heq2
      · next hd' rest3' heq2 =>
        rw [h2] at heq2
        cases heq2
        rw [if_neg hnemp] at hp
        simp only [List.mem_cons] at hp
        rcases hp with rfl | rfl | rfl | rfl | hp
        · exact hsplit1.1
        · exact safe_tpl (by simp [TEMPLATES])
        · exact hsplit2.1
        · exact safe_tpl (by simp [TEMPLATES])
        · exact ih hsplit2.2 p hp

end Markdown

namespace Markdown

/-- Every segment produced by the link pass is safe when the input
is. -/
lemma linksStage_safe : ∀ l, Safe l → ∀ p ∈ linksStage l, Safe p := by
  intro l
  induction l using linksStage.induct with
  | case1 x h1 =>
    intro hl p hp
    rw [linksStage.eq_def] at hp
    split at hp
    · simp only [List.mem_singleton] at hp
      exact hp ▸ hl
    · next heq => rw [h1] at heq; cases heq
  | case2 x pre rest h1 text url r4 h2 ih =>
    intro hl p hp
    have e1 := splitChar_eq h1
    have hsplit1 := safe_split_at_char lbracket_not_tpl hl e1
    have e2 : rest = text ++ ']' :: ('(' :: (url ++ ')' :: r4)) := by
      rw [parseLink_eq h2]
      simp
    have hsA := safe_split_at_char rbracket_not_tpl hsplit1.2 e2
    have hs2 : Safe (url ++ ')' :: r4) := safe_tail lparen_not_tpl hsA.2
    have hs3 := safe_split_at_char rparen_not_tpl hs2 rfl
    rw [linksStage.eq_def] at hp
    split at hp
    · next heq => rw [h1] at heq; cases heq
    · next pre' rest' heq =>
      rw [h1] at heq
      simp only [Option.some.injEq, Prod.mk.injEq] at heq
      obtain ⟨h3, h4⟩ := heq
      subst h3; subst h4
      split at hp
      · next text' url' r4' heq2 =>
        rw [h2] at heq2
        simp only [Option.some.injEq, Prod.mk.injEq] at heq2
        obtain ⟨h5, h6, h7⟩ := heq2
        subst h5; subst h6; subst h7
        simp only [List.mem_cons] at hp
        rcases hp with rfl | rfl | rfl | rfl | rfl | rfl | hp
        · exact hsplit1.1
        · exact safe_tpl (by simp [TEMPLATES])
        · exact hs3.1
        · exact safe_tpl (by simp [TEMPLATES])
        · exact hsA.1
        · exact safe_tpl (by simp [TEMPLATES])
        · exact ih hs3.2 p hp
      · next heq2 => rw [h2] at heq2; cases heq2
  | case3 x pre rest h1 h2 ih =>
    intro hl p hp
    have e1 := splitChar_eq h1
    have hsplit1 := safe_split_at_char lbracket_not_tpl hl e1
    rw [linksStage.eq_def] at hp
    split at hp
    · next heq => rw [h1] at heq; cases heq
    · next pre' rest' heq =>
      rw [h1] at heq
      simp only [Option.some.injEq, Prod.mk.injEq] at heq
      obtain ⟨h3, h4⟩ := heq
      subst h3; subst h4
      split at hp
      · next heq2 => rw [h2] at heq2; cases heq2
      · simp only [List.mem_cons] at hp
        rcases hp with rfl | hp
        · refine safe_append hsplit1.1 ?_
          exact safe_clean (clean_cons (by decide) (by decide) (by decide)
            (by decide) clean_nil)
        · exact ih hsplit1.2 p hp

/-- Every line produced by the line splitter is safe when the input
is. -/
lemma splitLines_safe : ∀ l, Safe l → ∀ p ∈ splitLines l, Safe p := by
  intro l
  induction l using splitLines.induct with
  | case1 x h1 =>
    intro hl p hp
    rw [splitLines.eq_def] at hp
    split at hp
    · simp only [List.mem_singleton] at hp
      exact hp ▸ hl
    · next heq => rw [h1] at heq; cases heq
  | case2 x pre rest h1 ih =>
    intro hl p hp
    have e1 := splitChar_eq h1
    have hsplit1 := safe_split_at_char newline_not_tpl hl e1
    rw [splitLines.eq_def] at hp
    split at hp
    · next heq => rw [h1] at heq; cases heq
    · next pre' rest' heq =>
      rw [h1] at heq
      simp only [Option.some.injEq, Prod.mk.injEq] at heq
      obtain ⟨h3, h4⟩ := heq
      subst h3; subst h4
      simp only [List.mem_cons] at hp
      rcases hp with rfl | hp
      · exact hsplit1.1
      · exact ih hsplit1.2 p hp

end Markdown

namespace Markdown

/-- A matched list line decomposes into the stripped marker prefix
(whitespace plus one `-`/`*` marker) followed by the item body. -/
lemma listItemBody_decomp {line body : List Char}
    (h : listItemBody line = some body) :
    ∃ p, line = p ++ body ∧
      ∀ x ∈ p, isSpaceChar x = true ∨ x = '-' ∨ x = '*' := by
  unfold listItemBody at h
  cases hdw : line.dropWhile isSpaceChar with
  | nil =>
    rw [hdw] at h
    exact Option.noConfusion h
  | cons c rest =>
    rw [hdw] at h
    have h' : (if (c = '-' ∨ c = '*') ∧
        ¬ (rest.takeWhile isSpaceChar).isEmpty then
          some (rest.dropWhile isSpaceChar) else none) = some body := h
    by_cases hcond : (c = '-' ∨ c = '*') ∧
        ¬ (rest.takeWhile isSpaceChar).isEmpty
    · rw [if_pos hcond] at h'
      simp only [Option.some.injEq] at h'
      refine ⟨line.takeWhile isSpaceChar ++ c :: rest.takeWhile isSpaceChar,
        ?_, ?_⟩
      · have hline : line = line.takeWhile isSpaceChar ++ (c :: rest) := by
          conv_lhs => rw [← List.takeWhile_append_dropWhile isSpaceChar line]
          rw [hdw]
        have hbody : rest = rest.takeWhile isSpaceChar ++ body := by
          rw [← h']
          exact (List.takeWhile_append_dropWhile isSpaceChar rest).symm
        conv_lhs => rw [hline, hbody]
        simp
      · intro x hx
        simp only [List.mem_append, List.mem_cons] at hx
        rcases hx with hx | rfl | hx
        · exact Or.inl (List.mem_takeWhile_imp hx)
        · exact Or.inr hcond.1
        · exact Or.inl (List.mem_takeWhile_imp hx)
    · rw [if_neg hcond] at h'
      exact Option.noConfusion h'

/-- Every segment produced by the line/list loop is safe when every
input line is. -/
lemma renderLines_safe : ∀ (lines : List (List Char)) (inList : Bool),
    (∀ line ∈ lines, Safe line) →
    ∀ p ∈ renderLines lines inList, Safe p := by
  intro lines
  induction lines with
  | nil =>
    intro inList _ p hp
    cases inList with
    | false => simp [renderLines] at hp
    | true =>
      simp only [renderLines, if_true, List.mem_singleton] at hp
      subst hp
      exact safe_tpl (by simp [TEMPLATES])
  | cons line rest ih =>
    intro inList hlines p hp
    have hline : Safe line := hlines line (by simp)
    have hrest : ∀ l ∈ rest, Safe l := fun l hl => hlines l (by simp [hl])
    rw [renderLines] at hp
    cases hlib : listItemBody line with
    | some body =>
      rw [hlib] at hp
      obtain ⟨pref, hdecomp, hpref⟩ := listItemBody_decomp hlib
      have hsplit := safe_split_prefix tpl_head_not_marker hline hdecomp hpref
      have hli : Safe (tplLiOpen ++ body ++ tplLiClose) :=
        safe_append (safe_append (safe_tpl (by simp [TEMPLATES])) hsplit.2)
          (safe_tpl (by simp [TEMPLATES]))
      cases inList with
      | true =>
        simp only [if_true, List.mem_cons] at hp
        rcases hp with rfl | hp
        · exact hli
        · exact ih true hrest p hp
      | false =>
        simp only [Bool.false_eq_true, if_false, List.mem_cons] at hp
        rcases hp with rfl | rfl | hp
        · exact safe_tpl (by simp [TEMPLATES])
        · exact hli
        · exact ih true hrest p hp
    | none =>
      rw [hlib] at hp
      cases inList with
      | true =>
        simp only [if_true, List.mem_cons] at hp
        rcases hp with rfl | rfl | hp
        · exact safe_tpl (by simp [TEMPLATES])
        · exact hline
        · exact ih false hrest p hp
      | false =>
        simp only [Bool.false_eq_true, if_false, List.mem_cons] at hp
        rcases hp with rfl | hp
        · exact hline
        · exact ih false hrest p hp

/-- Joining safe segments with the `<br />` template yields a safe
string. -/
lemma joinBr_safe : ∀ xs, (∀ x ∈ xs, Safe x) → Safe (joinBr xs) := by
  intro xs
  induction xs with
  | nil => intro _; exact safe_nil
  | cons x rest ih =>
    intro h
    cases rest with
    | nil =>
      have hx : joinBr [x] = x := rfl
      rw [hx]
      exact h x (by simp)
    | cons y ys =>
      have hx : joinBr (x :: y :: ys) = x ++ tplBr ++ joinBr (y :: ys) := rfl
      rw [hx]
      have hrec := ih (fun z hz => h z (by simp [hz]))
      exact safe_append (safe_append (h x (by simp))
        (safe_tpl (by simp [TEMPLATES]))) hrec

end Markdown

/-- C9: for every assistant message content string, `renderMarkdown`
first replaces the HTML metacharacters `&`, `<`, `>`, `"` and `'` with
their entity escapes — the escaped text contains none of `<`, `>`, `"`,
`'`, so every HTML tag in the input survives only as escaped text — and
the pipeline then applies the substitution passes to that escaped text,
each inserting only the renderer's fixed templates; hence the rendered
output is a concatenation of segments each of which is one of the fixed
templates (pre/code with the copy-button wrapper, code, strong, em, a,
ul/li, br) or an inert span with no HTML metacharacter. -/
theorem C9_renderMarkdown_escapes_html (s : String) :
    Markdown.Clean (Markdown.escapeHtml s.data) ∧
    (Markdown.renderMarkdown s).data =
      Markdown.joinBr (Markdown.renderLines (Markdown.splitLines
        ((Markdown.linksStage ((Markdown.emStage ((Markdown.boldStage
          ((Markdown.inlineCode ((Markdown.codeBlocks
            (Markdown.escapeHtml s.data)).flatten)).flatten)).flatten)).flatten)).flatten))
        false) ∧
    Markdown.Safe (Markdown.renderMarkdown s).data := by
  refine ⟨Markdown.escapeHtml_clean s.data, rfl, ?_⟩
  have h0 : Markdown.Safe (Markdown.escapeHtml s.data) :=
    Markdown.safe_clean (Markdown.escapeHtml_clean s.data)
  have h1 : Markdown.Safe
      ((Markdown.codeBlocks (Markdown.escapeHtml s.data)).flatten) :=
    Markdown.safe_flatten (Markdown.codeBlocks_safe _ h0)
  have h2 : Markdown.Safe ((Markdown.inlineCode
      ((Markdown.codeBlocks (Markdown.escapeHtml s.data)).flatten)).flatten) :=
    Markdown.safe_flatten (Markdown.inlineCode_safe _ h1)
  have h3 : Markdown.Safe ((Markdown.boldStage ((Markdown.inlineCode
      ((Markdown.codeBlocks
        (Markdown.escapeHtml s.data)).flatten)).flatten)).flatten) :=
    Markdown.safe_flatten (Markdown.boldStage_safe _ h2)
  have h4 : Markdown.Safe ((Markdown.emStage ((Markdown.boldStage
      ((Markdown.inlineCode ((Markdown.codeBlocks
        (Markdown.escapeHtml s.data)).flatten)).flatten)).flatten)).flatten) :=
    Markdown.safe_flatten (Markdown.emStage_safe _ h3)
  have h5 : Markdown.Safe ((Markdown.linksStage ((Markdown.emStage
      ((Markdown.boldStage ((Markdown.inlineCode ((Markdown.codeBlocks
        (Markdown.escapeHtml
          s.data)).flatten)).flatten)).flatten)).flatten)).flatten) :=
    Markdown.safe_flatten (Markdown.linksStage_safe _ h4)
  have h6 := Markdown.renderLines_safe _ false (Markdown.splitLines_safe _ h5)
  exact Markdown.joinBr_safe _ h6
